import Mathlib

/-!
Shallow embedding of the webgpu-vector-search repository.

Sources embedded here:
- `src/utils/tfIdf.ts` (`QueryVectorizer.vectorize` and helpers) — the query
  vectorizer.  The regex-based text preprocessing (`preprocessText`,
  `tokenize`) is abstracted by taking the cleaned token stream
  (`List String`) as input; every claim about the vectorizer quantifies over
  that token stream.
- `src/pipeline.ts` (`VectorSearchPipeline`, `DataIndexStream`).
- `src/gpu/gpuSimilarityEngineNew.ts`, which contains two engine classes:
  the LRU-cache engine (`uploadShardToGPU`, `evictIfNeeded`,
  `computeShardUsingResidentBuffer`, `computeTopKForResidentShard`), embedded
  below with state type `EngineNew`, and the record-based engine used by the
  pipeline (`createBufferRecord`, `computeShard`, `isQueryValid`,
  `isParamValid`), embedded with state type `Engine` (the `isQueryValid` and
  `isParamValid` checks appear as the guards of `computeShard`).

Machine floats (`Float32Array`, WGSL `f32`) are modelled by an arbitrary
linearly ordered field `K`: exact rationals (`ℚ`) for concrete evaluation and
the reals (`ℝ`) where a square root is needed (L2 normalization).  JavaScript
`Map` objects are modelled as association lists in insertion order, mirroring
`Map.set` / `Map.delete` / `Map.get` / iteration semantics.  GPU buffers are
modelled by their float contents; WebGPU storage buffers are zero-initialized
on creation, so entries never written by the shader read back as `0`.
-/

namespace WebGpuVectorSearch

/-! ### Query vectorizer (`src/utils/tfIdf.ts`) -/

/-- One step of the term-frequency count loop
`for (const t of tokens) counts[t] = (counts[t] || 0) + 1;`.
A JavaScript plain-object record keeps first-insertion key order, which an
association list mirrors. -/
def bumpCount : List (String × ℕ) → String → List (String × ℕ)
  | [], t => [(t, 1)]
  | (s, n) :: rest, t =>
    if s = t then (s, n + 1) :: rest else (s, n) :: bumpCount rest t

/-- Term counts of the token stream, in first-occurrence order. -/
def tokenCounts (tokens : List String) : List (String × ℕ) :=
  tokens.foldl bumpCount []

/-- The un-normalized TF-IDF vector built by `QueryVectorizer.vectorize`
before the L2 normalization step (lines 83–98 of `tfIdf.ts`):
`vec[index] = (counts[term] / total) * idf[index]` for every counted term
found in the vocabulary.  `List.set` ignores out-of-range indices exactly as
a `Float32Array` store does; a term with `vocab term = none` contributes
nothing. -/
def rawVector (vocab : String → Option ℕ) (idf : List ℚ) (tokens : List String) :
    List ℚ :=
  (tokenCounts tokens).foldl
    (fun vec tc =>
      match vocab tc.1 with
      | some index => vec.set index (((tc.2 : ℚ) / (tokens.length : ℚ)) * idf.getD index 0)
      | none => vec)
    (List.replicate idf.length 0)

/-- Sum of squares of a real vector. -/
def sumSq (v : List ℝ) : ℝ :=
  (v.map fun x => x * x).sum

/-- Euclidean (L2) norm of a real vector. -/
noncomputable def euclideanNorm (v : List ℝ) : ℝ :=
  Real.sqrt (sumSq v)

/-- `QueryVectorizer.vectorize`, with the float vector idealized over the
reals: build the raw TF-IDF vector, then L2-normalize it when its norm is
positive (lines 100–107 of `tfIdf.ts`). -/
noncomputable def vectorize (vocab : String → Option ℕ) (idf : List ℚ)
    (tokens : List String) : List ℝ :=
  let vec : List ℝ := (rawVector vocab idf tokens).map (fun q : ℚ => (q : ℝ))
  let norm := Real.sqrt (sumSq vec)
  if 0 < norm then vec.map fun x => x / norm else vec

/-! ### Data model of the pipeline engine (`src/gpu/types.ts`) -/

/-- `interface VecScore { idx; score }` -/
structure VecScore (K : Type) where
  idx : ℕ
  score : K
deriving DecidableEq

/-- `interface ShardScores { shardIdx; scores }` -/
structure ShardScores (K : Type) where
  shardIdx : ℕ
  scores : List (VecScore K)
deriving DecidableEq

/-- `interface VectorScore { globalIndex; score }` (`src/pipeline.ts`) -/
structure VectorScore (K : Type) where
  globalIndex : ℕ
  score : K
deriving DecidableEq

/-- `interface ShardRecord` — the `gpuBuffer` is modelled by the float
contents uploaded into it. -/
structure ShardRecord (K : Type) where
  shardIndex : ℕ
  byteSize : ℕ
  count : ℕ
  dim : ℕ
  vectors : List K
deriving DecidableEq

/-- `interface ShardComputedScores` (`src/pipeline.ts`) -/
structure ShardComputedScores (K : Type) where
  shardIndex : ℕ
  rawScores : List K
  count : ℕ
deriving DecidableEq

variable {K : Type} [LinearOrderedField K]

/-- The score comparator `(a, b) => b.score - a.score` used with the (stable)
`Array.prototype.sort` on per-shard `VecScore` lists: a stable sort placing
higher scores first. -/
def sortByScoreDesc : List (VecScore K) → List (VecScore K) :=
  List.insertionSort fun a b => b.score ≤ a.score

/-- The same stable descending sort on global `VectorScore` lists
(`globalResults.sort((a, b) => b.score - a.score)`). -/
def sortGlobalDesc : List (VectorScore K) → List (VectorScore K) :=
  List.insertionSort fun a b => b.score ≤ a.score

/-! ### Record-based GPU engine (`GpuSimilarityEngine` used by the pipeline,
second class in `src/gpu/gpuSimilarityEngineNew.ts`) -/

/-- Post-`init()` state of the record-based engine: the constructor arguments
`maxShardCount` and `dim` (as `vecDimension`) plus the `shardRecords` map,
modelled as an association list in `Map` insertion order. -/
structure Engine (K : Type) where
  vecDimension : ℕ
  maxShardCount : ℕ
  shardRecords : List (ShardRecord K)
deriving DecidableEq

/-- `Map.set` semantics on the shard-record list: replace in place when the
key exists, append otherwise. -/
def mapSetRecord : List (ShardRecord K) → ShardRecord K → List (ShardRecord K)
  | [], r => [r]
  | x :: xs, r =>
    if x.shardIndex = r.shardIndex then r :: xs else x :: mapSetRecord xs r

/-- `GpuSimilarityEngine.createBufferRecord`: validates
`shard.length == dim * count`, uploads the data (`byteSize` is the
`Float32Array` byte length `4 * shard.length`) and stores the record. -/
def createBufferRecord (e : Engine K) (shardIndex : ℕ) (shard : List K)
    (dim count : ℕ) : Except String (Engine K) :=
  if shard.length ≠ dim * count then
    Except.error "shard length != dim*count"
  else
    Except.ok { e with
      shardRecords := mapSetRecord e.shardRecords
        { shardIndex := shardIndex
          byteSize := 4 * shard.length
          count := count
          dim := dim
          vectors := shard } }

/-- One WGSL shader thread: `out[i] = sum_{k < dim} query[k] * vectors[i*dim + k]`.
Reads outside a storage buffer are modelled as `0` via `getD` (never reached
for in-range shards). -/
def shaderDot (query vectors : List K) (dim i : ℕ) : K :=
  ∑ k ∈ Finset.range dim, query.getD k 0 * vectors.getD (i * dim + k) 0

/-- `GpuSimilarityEngine.computeShard`: after the `isQueryValid` check
(`query.length === this.vecDimension`) and the `isParamValid` check
(`shard.dim === this.vecDimension`), dispatches the shader and reads back the
whole `readbackBuffer`, which holds `maxShardCount` floats — threads with
`i >= count` leave the zero-initialized output untouched.  The `params.dim`
written to the uniform buffer is `this.vecDimension`. -/
def computeShard (e : Engine K) (shardRec : ShardRecord K) (query : List K) :
    Except String (List K) :=
  if query.length ≠ e.vecDimension then
    Except.error "Query is invalid."
  else if shardRec.dim ≠ e.vecDimension then
    Except.error "Param is invalid."
  else
    Except.ok ((List.range e.maxShardCount).map fun i =>
      if i < shardRec.count then shaderDot query shardRec.vectors e.vecDimension i
      else 0)

/-! ### Search pipeline (`src/pipeline.ts`) -/

/-- A manifest shard descriptor; only the fields `VectorSearchPipeline.init`
reads (`count`; `start_index` is recorded but unused by `init`). -/
structure ManifestShard where
  count : ℕ
  startIndex : ℕ
deriving DecidableEq

/-- The `shardStartIdxMap` built by `init`: `globalIdx` starts at `0` and the
loop records the running total before adding each shard count.  Entry `i` of
the list is the value stored for key `i`. -/
def buildStartIdx (g : ℕ) : List ManifestShard → List ℕ
  | [] => []
  | s :: rest => g :: buildStartIdx (g + s.count) rest

/-- `Math.max(...manifest.shards.map(s => s.count))` over a nonempty manifest
(folded with `0` for the degenerate empty case). -/
def maxCount (shards : List ManifestShard) : ℕ :=
  (shards.map fun s => s.count).foldr max 0

/-- The buffer-record creation loop of `VectorSearchPipeline.init`: for each
manifest shard `i`, load its vectors (the external `store.loadShard(i)`,
modelled by the function `data`) and call `createBufferRecord`. -/
def initLoop (dim : ℕ) (data : ℕ → List K) :
    ℕ → List ManifestShard → Engine K → Except String (Engine K)
  | _, [], e => Except.ok e
  | i, s :: rest, e =>
    match createBufferRecord e i (data i) dim s.count with
    | Except.error err => Except.error err
    | Except.ok e1 => initLoop dim data (i + 1) rest e1

/-- `VectorSearchPipeline.init` restricted to the state the search claims
read: construct the engine (`new GpuSimilarityEngine(maxShardCount, dim)`),
create a buffer record for every manifest shard, and build the
`shardStartIdxMap`.  Loading of vocabulary artifacts is external. -/
def initPipeline (dim : ℕ) (shards : List ManifestShard) (data : ℕ → List K) :
    Except String (Engine K × List ℕ) :=
  match initLoop dim data 0 shards
      { vecDimension := dim, maxShardCount := maxCount shards, shardRecords := [] } with
  | Except.error err => Except.error err
  | Except.ok e => Except.ok (e, buildStartIdx 0 shards)

/-- Stage 1 loop of `search` (`computeShardScores`): iterate the
`shardRecords` map in insertion order, aborting at the first compute error. -/
def computeShardsLoop (e : Engine K) (qvec : List K) :
    List (ShardRecord K) → Except String (List (ShardComputedScores K))
  | [] => Except.ok []
  | rec :: rest =>
    match computeShard e rec qvec with
    | Except.error err => Except.error err
    | Except.ok raw =>
      match computeShardsLoop e qvec rest with
      | Except.error err => Except.error err
      | Except.ok outs =>
        Except.ok ({ shardIndex := rec.shardIndex, rawScores := raw, count := rec.count } :: outs)

/-- `VectorSearchPipeline.extractShardScores`: pair the first `count` raw
scores with their local indices and stably sort by descending score. -/
def extractShardScores (shardIndex : ℕ) (rawScores : List K) (count : ℕ) :
    ShardScores K :=
  { shardIdx := shardIndex
    scores := sortByScoreDesc ((List.range count).map fun i =>
      { idx := i, score := rawScores.getD i 0 }) }

/-- `VectorSearchPipeline.reassignScoresToGlobalIndex`:
`start = shardStartIdxMap.get(shardIdx) ?? 0`, then
`globalIndex = start + idx`. -/
def reassignScoresToGlobalIndex (startIdxMap : List ℕ) (sr : ShardScores K) :
    List (VectorScore K) :=
  sr.scores.map fun it =>
    { globalIndex := startIdxMap.getD sr.shardIdx 0 + it.idx, score := it.score }

/-- `VectorSearchPipeline.search` from the query vector on: stage 1 computes
every shard, stages 2–3 extract and remap per shard and concatenate, and the
combined results are sorted by descending score.  There is no `topK`
parameter in the source. -/
def search (e : Engine K) (startIdxMap : List ℕ) (qvec : List K) :
    Except String (List (VectorScore K)) :=
  match computeShardsLoop e qvec e.shardRecords with
  | Except.error err => Except.error err
  | Except.ok outs =>
    Except.ok (sortGlobalDesc
      ((outs.map fun out =>
        reassignScoresToGlobalIndex startIdxMap
          (extractShardScores out.shardIndex out.rawScores out.count)).flatten))

/-- The full `search(query)` including its first step `vectorize(query)`,
with the query given by its cleaned token stream. -/
noncomputable def searchText (vocab : String → Option ℕ) (idf : List ℚ)
    (e : Engine ℝ) (startIdxMap : List ℕ) (tokens : List String) :
    Except String (List (VectorScore ℝ)) :=
  search e startIdxMap (vectorize vocab idf tokens)

/-! ### Result stream (`DataIndexStream`, `src/pipeline.ts`) -/

/-- `DataIndexStream` state: the backing result list and the cursor. -/
structure DataIndexStream (K : Type) where
  data : List (VectorScore K)
  index : ℕ
deriving DecidableEq

/-- `next(k)`: `data.slice(index, index + k)`, then advance the cursor by the
length of the returned slice. -/
def DataIndexStream.next (s : DataIndexStream K) (k : ℕ) :
    List (VectorScore K) × DataIndexStream K :=
  let slice := (s.data.drop s.index).take k
  (slice, { s with index := s.index + slice.length })

/-- `hasMore()`: `index < data.length`. -/
def DataIndexStream.hasMore (s : DataIndexStream K) : Bool :=
  s.index < s.data.length

/-- A sequence of `next` calls, returning the slices in order and the final
stream state. -/
def DataIndexStream.runNext (s : DataIndexStream K) :
    List ℕ → List (List (VectorScore K)) × DataIndexStream K
  | [] => ([], s)
  | k :: ks =>
    let step := s.next k
    let rest := step.2.runNext ks
    (step.1 :: rest.1, rest.2)

/-! ### LRU-cache GPU engine (`GpuSimilarityEngine` with shard residency,
first class in `src/gpu/gpuSimilarityEngineNew.ts`) -/

/-- `ShardGPURecord`: cached metadata of a resident shard plus the float
contents of its `gpuBuffer`.  `lastUsed` is the `Date.now()` timestamp. -/
structure ShardGPURecord where
  shardIndex : ℕ
  count : ℕ
  startIndex : ℕ
  byteSize : ℕ
  lastUsed : ℕ
  vectors : List ℚ
deriving DecidableEq

/-- Post-`init()` state of the LRU engine.  `totalGpuBytes` mirrors the
JavaScript number field (arbitrary-sign integer arithmetic), `maxGpuBytes`
the configured byte budget.  `maxDim` and `maxShardCount` track the reusable
query/readback buffer sizes. -/
structure EngineNew where
  shardCache : List ShardGPURecord
  totalGpuBytes : ℤ
  maxGpuBytes : ℤ
  maxDim : ℕ
  maxShardCount : ℕ
deriving DecidableEq

/-- A freshly constructed and initialized LRU engine with byte budget
`maxGpuBytes` (`new GpuSimilarityEngine(maxGpuBytes)` followed by
`init(dimHint, maxShardCountHint)`; the hints only size reusable buffers). -/
def initEngineNew (maxGpuBytes : ℤ) (dimHint maxShardCountHint : ℕ) : EngineNew :=
  { shardCache := []
    totalGpuBytes := 0
    maxGpuBytes := maxGpuBytes
    maxDim := max 1 dimHint
    maxShardCount := max 1 maxShardCountHint }

/-- `Map.get` on the shard cache. -/
def lookupShard : List ShardGPURecord → ℕ → Option ShardGPURecord
  | [], _ => none
  | r :: rest, k => if r.shardIndex = k then some r else lookupShard rest k

/-- `Map.delete` on the shard cache: remove the entry with the given key,
keeping the order of the rest. -/
def deleteShard : List ShardGPURecord → ℕ → List ShardGPURecord
  | [], _ => []
  | r :: rest, k => if r.shardIndex = k then rest else r :: deleteShard rest k

/-- The in-place metadata refresh of the already-resident branch of
`uploadShardToGPU`: update `count`, `startIndex` and `lastUsed` of the entry
with the given key (`byteSize` and the buffer contents are left untouched). -/
def refreshShard (count startIndex now : ℕ) :
    List ShardGPURecord → ℕ → List ShardGPURecord
  | [], _ => []
  | r :: rest, k =>
    if r.shardIndex = k then
      { r with count := count, startIndex := startIndex, lastUsed := now } :: rest
    else r :: refreshShard count startIndex now rest k

/-- The LRU mutation of `computeShardUsingResidentBuffer`
(`shardRec.lastUsed = Date.now()`): refresh only `lastUsed`. -/
def touchShard (now : ℕ) : List ShardGPURecord → ℕ → List ShardGPURecord
  | [], _ => []
  | r :: rest, k =>
    if r.shardIndex = k then { r with lastUsed := now } :: rest
    else r :: touchShard now rest k

/-- `Array.from(shardCache.values()).sort((a, b) => a.lastUsed - b.lastUsed)`:
stable sort of the cached records, oldest `lastUsed` first. -/
def sortByLastUsed : List ShardGPURecord → List ShardGPURecord :=
  List.insertionSort fun a b => a.lastUsed ≤ b.lastUsed

/-- The `for (const rec of entries)` eviction loop of `evictIfNeeded`:
iterate the sorted snapshot, delete each record from the live cache and
subtract its `byteSize`, stopping as soon as
`totalGpuBytes + neededBytes <= maxGpuBytes`.  Returns the evicted records in
eviction order, the remaining cache, the new byte total, and whether the
early-exit condition was reached. -/
def evictLoop (maxBytes needed : ℤ) :
    List ShardGPURecord → List ShardGPURecord → ℤ →
    List ShardGPURecord × List ShardGPURecord × ℤ × Bool
  | [], cache, total => ([], cache, total, false)
  | r :: rest, cache, total =>
    let cache1 := deleteShard cache r.shardIndex
    let total1 := total - (r.byteSize : ℤ)
    if total1 + needed ≤ maxBytes then ([r], cache1, total1, true)
    else
      let tail := evictLoop maxBytes needed rest cache1 total1
      (r :: tail.1, tail.2.1, tail.2.2.1, tail.2.2.2)

/-- `GpuSimilarityEngine.evictIfNeeded(neededBytes)`.  Returns the engine
state after the call (mutations persist even when it throws), the ghost list
of evicted records, and the error, if any
(`"Not enough GPU memory for shard upload after eviction."`). -/
def evictIfNeeded (e : EngineNew) (needed : ℤ) :
    EngineNew × List ShardGPURecord × Option String :=
  if e.totalGpuBytes + needed ≤ e.maxGpuBytes then (e, [], none)
  else
    let entries := sortByLastUsed e.shardCache
    let res := evictLoop e.maxGpuBytes needed entries e.shardCache e.totalGpuBytes
    let e1 := { e with shardCache := res.2.1, totalGpuBytes := res.2.2.1 }
    if res.2.2.2 then (e1, res.1, none)
    else if res.2.2.1 + needed > e.maxGpuBytes then
      (e1, res.1, some "Not enough GPU memory for shard upload after eviction.")
    else (e1, res.1, none)

/-- `GpuSimilarityEngine.uploadShardToGPU(shardIndex, shardVectors, dim,
count, startIndex)` at time `now`.  `byteSize = shardVectors.byteLength =
4 * shardVectors.length`.  If the shard is already resident the metadata is
refreshed and the call returns; otherwise it evicts as needed (evictions
persist even when the upload then fails), uploads the buffer, caches the
record, adds its bytes, and grows the readback buffer when `count` exceeds
`maxShardCount`.  Returns the new state, the ghost list of evicted records,
and the error, if any. -/
def uploadShardToGPU (e : EngineNew) (shardIndex : ℕ) (shardVectors : List ℚ)
    (dim count startIndex now : ℕ) :
    EngineNew × List ShardGPURecord × Option String :=
  let byteSize := 4 * shardVectors.length
  match lookupShard e.shardCache shardIndex with
  | some _ =>
    ({ e with shardCache := refreshShard count startIndex now e.shardCache shardIndex },
      [], none)
  | none =>
    let ev := evictIfNeeded e (byteSize : ℤ)
    match ev.2.2 with
    | some err => (ev.1, ev.2.1, some err)
    | none =>
      let record : ShardGPURecord :=
        { shardIndex := shardIndex
          count := count
          startIndex := startIndex
          byteSize := byteSize
          lastUsed := now
          vectors := shardVectors }
      let e1 := { ev.1 with
        shardCache := ev.1.shardCache ++ [record]
        totalGpuBytes := ev.1.totalGpuBytes + (byteSize : ℤ) }
      let e2 :=
        if count > e1.maxShardCount then { e1 with maxShardCount := count } else e1
      (e2, ev.2.1, none)

/-- One call of a shard-upload sequence (the arguments of
`uploadShardToGPU`, with `shardVectors` the uploaded floats and `now` the
`Date.now()` value observed during the call). -/
structure UploadCall where
  shardIndex : ℕ
  shardVectors : List ℚ
  dim : ℕ
  count : ℕ
  startIndex : ℕ
  now : ℕ
deriving DecidableEq

/-- Run a sequence of `uploadShardToGPU` calls, threading the engine state
(a call that throws still leaves its state mutations behind). -/
def runUploads (e : EngineNew) : List UploadCall → EngineNew
  | [] => e
  | c :: cs =>
    runUploads (uploadShardToGPU e c.shardIndex c.shardVectors c.dim c.count
      c.startIndex c.now).1 cs

/-- Aggregate resident bytes: the sum of `byteSize` over the cached shards. -/
def sumBytes (l : List ShardGPURecord) : ℤ :=
  (l.map fun r => (r.byteSize : ℤ)).sum

/-- The shard indices of the cached records, in cache order. -/
def cacheKeys (l : List ShardGPURecord) : List ℕ :=
  l.map fun r => r.shardIndex

/-- Well-formedness of an LRU engine state, holding in every state reachable
by upload sequences from a freshly initialized engine with a non-negative
byte budget: the cache has `Map` semantics (distinct keys), `totalGpuBytes`
is exact bookkeeping of the resident bytes, the budget is non-negative, and
the resident bytes respect the budget. -/
def engineWellFormed (e : EngineNew) : Prop :=
  (cacheKeys e.shardCache).Nodup ∧
  e.totalGpuBytes = sumBytes e.shardCache ∧
  0 ≤ e.maxGpuBytes ∧
  sumBytes e.shardCache ≤ e.maxGpuBytes

/-- `interface ShardTopK` (`src/gpu/types.ts` of the LRU engine). -/
structure ShardTopK where
  shardIndex : ℕ
  indices : List ℕ
  scores : List ℚ
deriving DecidableEq

/-- `GpuSimilarityEngine.ensureQueryAndParams(dim, count, query)`: grows the
reusable query buffer when `dim > maxDim`, then issues
`queue.writeBuffer(queryBuffer, 0, query.buffer, query.byteOffset, dim * 4)`.
That write carries the WebGPU content-timeline validation
`dataOffset + size <= data.byteLength`: requesting `dim * 4` bytes from a
query whose backing buffer holds `query.length * 4` bytes throws an
`OperationError` when `query.length < dim`.  No dimension-EQUALITY check is
performed: a query longer than `dim` passes, with only its first `dim`
floats written.  The `count` argument only feeds the params write, which
cannot fail. -/
def ensureQueryAndParams (e : EngineNew) (dim : ℕ) (query : List ℚ) :
    Except String EngineNew :=
  let e1 := if dim > e.maxDim then { e with maxDim := dim } else e
  if query.length < dim then
    Except.error "OperationError: writeBuffer data range exceeds source buffer"
  else
    Except.ok e1

/-- `GpuSimilarityEngine.computeShardUsingResidentBuffer(shardRec, dim)`:
dispatches the shader with `params = (dim, shardRec.count)` against the
resident buffer and reads back exactly `count` floats
(`getMappedRange(0, count * 4)`).  The query storage buffer holds the floats
written by `ensureQueryAndParams` (whenever that write validated,
`dim <= query.length`, the shader reads stay inside the written prefix);
positions beyond the query are modelled as `0` via `getD`. -/
def computeShardUsingResidentBuffer (shardRec : ShardGPURecord) (dim : ℕ)
    (query : List ℚ) : List ℚ :=
  (List.range shardRec.count).map fun i => shaderDot query shardRec.vectors dim i

/-- `GpuSimilarityEngine.computeTopKForResidentShard(shardIndex, query, dim,
topK)` at time `now`: fails when the shard is not resident; otherwise writes
query and params — which throws the `writeBuffer` `OperationError` when the
query holds fewer than `dim` floats — then computes the resident-buffer
scores (refreshing the LRU timestamp), sorts them descending and keeps
`Math.min(topK, scored.length)` entries.  No dimension-equality check is
performed on `query`: an over-long query is accepted. -/
def computeTopKForResidentShard (e : EngineNew) (shardIndex : ℕ)
    (query : List ℚ) (dim topK now : ℕ) : Except String (EngineNew × ShardTopK) :=
  match lookupShard e.shardCache shardIndex with
  | none => Except.error "Shard not resident on GPU"
  | some shardRec =>
    match ensureQueryAndParams e dim query with
    | Except.error err => Except.error err
    | Except.ok e1 =>
      let sims := computeShardUsingResidentBuffer shardRec dim query
      let e2 := { e1 with shardCache := touchShard now e1.shardCache shardIndex }
      let scored := sortByScoreDesc ((List.range shardRec.count).map fun i =>
        { idx := i, score := sims.getD i 0 })
      let top := scored.take (min topK scored.length)
      Except.ok (e2,
        { shardIndex := shardIndex
          indices := top.map fun t => t.idx
          scores := top.map fun t => t.score })

/-! ## Theorems -/

/-! ### Shared order instances and sorting lemmas -/

instance : IsTotal (VecScore K) fun a b => b.score ≤ a.score :=
  ⟨fun a b => le_total b.score a.score⟩

instance : IsTrans (VecScore K) fun a b => b.score ≤ a.score :=
  ⟨fun _ _ _ h1 h2 => le_trans h2 h1⟩

instance : IsTotal (VectorScore K) fun a b => b.score ≤ a.score :=
  ⟨fun a b => le_total b.score a.score⟩

instance : IsTrans (VectorScore K) fun a b => b.score ≤ a.score :=
  ⟨fun _ _ _ h1 h2 => le_trans h2 h1⟩

instance : IsTotal ShardGPURecord fun a b => a.lastUsed ≤ b.lastUsed :=
  ⟨fun a b => le_total a.lastUsed b.lastUsed⟩

instance : IsTrans ShardGPURecord fun a b => a.lastUsed ≤ b.lastUsed :=
  ⟨fun _ _ _ h1 h2 => le_trans h1 h2⟩

theorem sortGlobalDesc_sorted (l : List (VectorScore K)) :
    (sortGlobalDesc l).Sorted fun a b => b.score ≤ a.score :=
  List.sorted_insertionSort _ l

theorem sortGlobalDesc_perm (l : List (VectorScore K)) : List.Perm (sortGlobalDesc l) l :=
  List.perm_insertionSort _ l

theorem sortByScoreDesc_length (l : List (VecScore K)) :
    (sortByScoreDesc l).length = l.length :=
  List.length_insertionSort _ l

theorem sortByScoreDesc_perm (l : List (VecScore K)) : List.Perm (sortByScoreDesc l) l :=
  List.perm_insertionSort _ l

/-! ### C10: DataIndexStream cursor and slice invariants -/

theorem runNext_invariant (data : List (VectorScore K)) (ks : List ℕ) :
    ∀ i : ℕ, i ≤ data.length →
      (DataIndexStream.runNext ⟨data, i⟩ ks).2.data = data ∧
      i ≤ (DataIndexStream.runNext ⟨data, i⟩ ks).2.index ∧
      ((DataIndexStream.runNext ⟨data, i⟩ ks).2.index ≤ data.length) ∧
      (DataIndexStream.runNext ⟨data, i⟩ ks).1.flatten
        = (data.drop i).take ((DataIndexStream.runNext ⟨data, i⟩ ks).2.index - i) ∧
      List.Forall₂ (fun sl k => sl.length ≤ k)
        (DataIndexStream.runNext ⟨data, i⟩ ks).1 ks := by
  induction ks with
  | nil =>
    intro i hi
    refine ⟨rfl, le_refl _, hi, ?_, List.Forall₂.nil⟩
    simp [DataIndexStream.runNext]
  | cons k ks ih =>
    intro i hi
    have hstep :
        DataIndexStream.runNext ⟨data, i⟩ (k :: ks)
          = (((data.drop i).take k) ::
              (DataIndexStream.runNext ⟨data, i + ((data.drop i).take k).length⟩ ks).1,
             (DataIndexStream.runNext ⟨data, i + ((data.drop i).take k).length⟩ ks).2) := by
      simp [DataIndexStream.runNext, DataIndexStream.next]
    have hL : ((data.drop i).take k).length = min k (data.length - i) := by
      simp
    have hiL : i + ((data.drop i).take k).length ≤ data.length := by
      rw [hL]; omega
    obtain ⟨hdata, hmono, hbound, hflat, hforall⟩ :=
      ih (i + ((data.drop i).take k).length) hiL
    rw [hstep]
    dsimp only
    refine ⟨hdata, by omega, hbound, ?_, ?_⟩
    · simp only [List.flatten_cons, hflat]
      generalize hJ : (DataIndexStream.runNext
        (⟨data, i + ((data.drop i).take k).length⟩ : DataIndexStream K) ks).2.index = J at hmono ⊢
      have hsplit : J - i
          = ((data.drop i).take k).length + (J - (i + ((data.drop i).take k).length)) := by
        omega
      rw [hsplit, List.take_add]
      congr 1
      · rw [List.take_eq_take]
        simp
      · congr 1
        rw [List.drop_drop]
    · refine List.Forall₂.cons ?_ hforall
      rw [hL]; omega

/-- C10: for every `DataIndexStream` over a result list and every sequence of
`next(k)` calls, the returned slices are successive disjoint adjacent chunks
of at most `k` entries whose concatenation is a prefix of the backing list,
the cursor never exceeds the list length, and `hasMore()` is `true` exactly
when unconsumed entries remain. -/
theorem C10_dataIndexStream_invariants (data : List (VectorScore K)) (ks : List ℕ) :
    (DataIndexStream.runNext ⟨data, 0⟩ ks).1.flatten
        = data.take (DataIndexStream.runNext ⟨data, 0⟩ ks).2.index ∧
    (DataIndexStream.runNext ⟨data, 0⟩ ks).2.index ≤ data.length ∧
    List.Forall₂ (fun sl k => sl.length ≤ k)
      (DataIndexStream.runNext ⟨data, 0⟩ ks).1 ks ∧
    ((DataIndexStream.runNext ⟨data, 0⟩ ks).2.hasMore = true ↔
      (DataIndexStream.runNext ⟨data, 0⟩ ks).2.index < data.length) := by
  obtain ⟨hdata, _, hbound, hflat, hforall⟩ :=
    runNext_invariant data ks 0 (Nat.zero_le _)
  refine ⟨?_, hbound, hforall, ?_⟩
  · simpa using hflat
  · simp [DataIndexStream.hasMore, hdata]

/-! ### Vectorizer lemmas, C5 and C6 -/

theorem rawVector_foldl_length (vocab : String → Option ℕ) (idf : List ℚ)
    (total : ℚ) (counts : List (String × ℕ)) :
    ∀ vec : List ℚ,
      (counts.foldl
        (fun vec tc =>
          match vocab tc.1 with
          | some index => vec.set index (((tc.2 : ℚ) / total) * idf.getD index 0)
          | none => vec)
        vec).length = vec.length := by
  induction counts with
  | nil => intro vec; rfl
  | cons c cs ih =>
    intro vec
    rw [List.foldl_cons, ih]
    cases vocab c.1 <;> simp

theorem rawVector_length (vocab : String → Option ℕ) (idf : List ℚ)
    (tokens : List String) : (rawVector vocab idf tokens).length = idf.length := by
  unfold rawVector
  rw [rawVector_foldl_length]
  simp

theorem vectorize_length (vocab : String → Option ℕ) (idf : List ℚ)
    (tokens : List String) : (vectorize vocab idf tokens).length = idf.length := by
  unfold vectorize
  dsimp only
  split <;> simp [rawVector_length]

theorem mem_bumpCount (t : String) (p : String × ℕ) :
    ∀ acc : List (String × ℕ), p ∈ bumpCount acc t → p.1 = t ∨ p ∈ acc := by
  intro acc
  induction acc with
  | nil =>
    intro hp
    simp only [bumpCount, List.mem_singleton] at hp
    left; rw [hp]
  | cons c cs ih =>
    intro hp
    simp only [bumpCount] at hp
    by_cases hc : c.1 = t
    · rw [if_pos hc] at hp
      rcases List.mem_cons.mp hp with h | h
      · left; rw [h]; exact hc
      · right; exact List.mem_cons_of_mem _ h
    · rw [if_neg hc] at hp
      rcases List.mem_cons.mp hp with h | h
      · right; rw [h]; exact List.mem_cons_self _ _
      · rcases ih h with h1 | h1
        · left; exact h1
        · right; exact List.mem_cons_of_mem _ h1

theorem mem_tokenCounts (tokens : List String) (p : String × ℕ)
    (hp : p ∈ tokenCounts tokens) : p.1 ∈ tokens := by
  unfold tokenCounts at hp
  suffices h : ∀ acc : List (String × ℕ),
      p ∈ tokens.foldl bumpCount acc → p.1 ∈ tokens ∨ p ∈ acc by
    rcases h [] hp with h1 | h1
    · exact h1
    · simp at h1
  clear hp
  induction tokens with
  | nil =>
    intro acc hp
    right
    simpa using hp
  | cons t ts ih =>
    intro acc hp
    rw [List.foldl_cons] at hp
    rcases ih (bumpCount acc t) hp with h1 | h1
    · left; exact List.mem_cons_of_mem _ h1
    · rcases mem_bumpCount t p acc h1 with h2 | h2
      · left; rw [h2]; exact List.mem_cons_self _ _
      · right; exact h2

theorem rawVector_eq_zero (vocab : String → Option ℕ) (idf : List ℚ)
    (tokens : List String)
    (h : tokens = [] ∨ ∀ t ∈ tokens, vocab t = none) :
    rawVector vocab idf tokens = List.replicate idf.length 0 := by
  have hnone : ∀ tc ∈ tokenCounts tokens, vocab tc.1 = none := by
    rcases h with h | h
    · intro tc htc
      rw [h] at htc
      simp [tokenCounts] at htc
    · intro tc htc
      exact h tc.1 (mem_tokenCounts tokens tc htc)
  suffices hgen : ∀ counts : List (String × ℕ), (∀ tc ∈ counts, vocab tc.1 = none) →
      ∀ init : List ℚ,
        counts.foldl
          (fun vec tc =>
            match vocab tc.1 with
            | some index => vec.set index (((tc.2 : ℚ) / (tokens.length : ℚ)) * idf.getD index 0)
            | none => vec)
          init = init by
    unfold rawVector
    exact hgen (tokenCounts tokens) hnone (List.replicate idf.length 0)
  intro counts
  induction counts with
  | nil => intro _ init; rfl
  | cons c cs ih =>
    intro hcs init
    rw [List.foldl_cons]
    have hc : vocab c.1 = none := hcs c (List.mem_cons_self _ _)
    rw [hc]
    exact ih (fun tc htc => hcs tc (List.mem_cons_of_mem _ htc)) init

theorem vectorize_eq_zero (vocab : String → Option ℕ) (idf : List ℚ)
    (tokens : List String)
    (h : tokens = [] ∨ ∀ t ∈ tokens, vocab t = none) :
    vectorize vocab idf tokens = List.replicate idf.length 0 := by
  unfold vectorize
  rw [rawVector_eq_zero vocab idf tokens h]
  simp [sumSq]

/-- C5: for every input whose cleaned token stream is empty (empty input or
stopword-only input) or matches no vocabulary term, `vectorize` returns the
all-zero vector of length `dim = idf.length`; the function is total, so no
error is raised. -/
theorem C5_empty_or_oov_gives_zero_vector (vocab : String → Option ℕ)
    (idf : List ℚ) (tokens : List String)
    (h : tokens = [] ∨ ∀ t ∈ tokens, vocab t = none) :
    vectorize vocab idf tokens = List.replicate idf.length 0 :=
  vectorize_eq_zero vocab idf tokens h

/-- Witness for C5 at a concrete input: the empty token stream over a
one-term vocabulary yields the zero vector of length 1. -/
theorem C5_witness :
    vectorize (fun t => if t = "a" then some 0 else none) [1] []
      = List.replicate 1 0 :=
  C5_empty_or_oov_gives_zero_vector _ [1] [] (Or.inl rfl)

theorem sumSq_nonneg (v : List ℝ) : 0 ≤ sumSq v := by
  apply List.sum_nonneg
  intro x hx
  rcases List.mem_map.mp hx with ⟨y, _, hy⟩
  rw [← hy]
  exact mul_self_nonneg y

theorem sumSq_eq_zero_iff (v : List ℝ) : sumSq v = 0 ↔ ∀ x ∈ v, x = 0 := by
  induction v with
  | nil => simp [sumSq]
  | cons x xs ih =>
    have hcons : sumSq (x :: xs) = x * x + sumSq xs := by
      simp [sumSq]
    rw [hcons, add_eq_zero_iff_of_nonneg (mul_self_nonneg x) (sumSq_nonneg xs),
      mul_self_eq_zero, ih]
    constructor
    · rintro ⟨hx, hxs⟩ y hy
      rcases List.mem_cons.mp hy with hy | hy
      · rw [hy]; exact hx
      · exact hxs y hy
    · intro hall
      exact ⟨hall x (List.mem_cons_self _ _),
        fun y hy => hall y (List.mem_cons_of_mem _ hy)⟩

/-- C6: whenever `vectorize` returns a non-zero vector, that vector has
Euclidean norm exactly `1` (the floating-point tolerance of the claim is the
exact equality of the idealized real-valued model). -/
theorem C6_nonzero_output_has_unit_norm (vocab : String → Option ℕ)
    (idf : List ℚ) (tokens : List String)
    (h : vectorize vocab idf tokens ≠ List.replicate idf.length 0) :
    euclideanNorm (vectorize vocab idf tokens) = 1 := by
  unfold vectorize at h ⊢
  dsimp only at h ⊢
  set w : List ℝ := (rawVector vocab idf tokens).map (fun q : ℚ => (q : ℝ)) with hw
  have hwlen : w.length = idf.length := by
    rw [hw, List.length_map, rawVector_length]
  by_cases hS : sumSq w = 0
  · exfalso
    have hzero : ∀ x ∈ w, x = 0 := (sumSq_eq_zero_iff w).mp hS
    have hrepl : w = List.replicate idf.length 0 :=
      List.eq_replicate_iff.mpr ⟨hwlen, hzero⟩
    rw [hS] at h
    simp only [Real.sqrt_zero, lt_self_iff_false, if_false] at h
    exact h hrepl
  · have hSpos : 0 < sumSq w := lt_of_le_of_ne (sumSq_nonneg w) (Ne.symm hS)
    have hnormpos : 0 < Real.sqrt (sumSq w) := Real.sqrt_pos.mpr hSpos
    rw [if_pos hnormpos]
    have hnormne : Real.sqrt (sumSq w) ≠ 0 := ne_of_gt hnormpos
    unfold euclideanNorm
    have hmap : sumSq (w.map fun x => x / Real.sqrt (sumSq w)) = 1 := by
      have hstep : sumSq (w.map fun x => x / Real.sqrt (sumSq w))
          = (List.map ((fun x => x * x) ∘ fun x => x / Real.sqrt (sumSq w)) w).sum := by
        unfold sumSq
        rw [List.map_map]
      have hfun : ((fun x => x * x) ∘ fun x => x / Real.sqrt (sumSq w))
          = fun x : ℝ => x * x * (Real.sqrt (sumSq w) * Real.sqrt (sumSq w))⁻¹ := by
        funext x
        simp only [Function.comp_apply]
        rw [div_mul_div_comm, div_eq_mul_inv]
      rw [hstep, hfun]
      rw [List.sum_map_mul_right, Real.mul_self_sqrt (le_of_lt hSpos)]
      have hsum : (w.map fun x => x * x).sum = sumSq w := rfl
      rw [hsum, mul_inv_cancel₀ hS]
    rw [hmap, Real.sqrt_one]

/-- Witness for C6 at a concrete input: the single in-vocabulary token `"a"`
with `idf = [1]` produces a non-zero vector, whose norm is `1`. -/
theorem C6_witness :
    (vectorize (fun t => if t = "a" then some 0 else none) [1] ["a"]
        ≠ List.replicate 1 0) ∧
      euclideanNorm (vectorize (fun t => if t = "a" then some 0 else none) [1] ["a"]) = 1 := by
  have hraw : rawVector (fun t => if t = "a" then some 0 else none) [1] ["a"] = [1] := by
    norm_num [rawVector, tokenCounts, bumpCount]
  have hvec : vectorize (fun t => if t = "a" then some 0 else none) [1] ["a"] = [1] := by
    unfold vectorize
    rw [hraw]
    norm_num [sumSq]
  refine ⟨?_, C6_nonzero_output_has_unit_norm _ [1] ["a"] ?_⟩ <;>
    · rw [hvec]
      simp

/-! ### C4: global index remapping -/

theorem range'_append_eq (s m n : ℕ) :
    List.range' s m ++ List.range' (s + m) n = List.range' s (m + n) := by
  simp [Nat.add_comm]

theorem buildStartIdx_getD :
    ∀ (shards : List ManifestShard) (g i : ℕ), i < shards.length →
      (buildStartIdx g shards).getD i 0
        = g + ((shards.take i).map fun s => s.count).sum := by
  intro shards
  induction shards with
  | nil => intro g i hi; simp at hi
  | cons s ss ih =>
    intro g i hi
    cases i with
    | zero => simp [buildStartIdx]
    | succ j =>
      have hj : j < ss.length := by simpa using hi
      have := ih (g + s.count) j hj
      simp only [buildStartIdx, List.getD_cons_succ, List.take_succ_cons,
        List.map_cons, List.sum_cons]
      rw [this]
      ring

theorem buildStartIdx_flatten_range' :
    ∀ (shards : List ManifestShard) (g : ℕ),
      ((List.range shards.length).map fun j =>
          List.range' ((buildStartIdx g shards).getD j 0)
            ((shards.map fun s => s.count).getD j 0)).flatten
        = List.range' g ((shards.map fun s => s.count).sum) := by
  intro shards
  induction shards with
  | nil => intro g; simp [buildStartIdx]
  | cons s ss ih =>
    intro g
    rw [List.length_cons, List.range_succ_eq_map, List.map_cons, List.flatten_cons,
      List.map_map]
    have hhead :
        List.range' ((buildStartIdx g (s :: ss)).getD 0 0)
            (((s :: ss).map fun s => s.count).getD 0 0)
          = List.range' g s.count := by
      simp [buildStartIdx]
    have htail :
        ((List.range ss.length).map
            ((fun j => List.range' ((buildStartIdx g (s :: ss)).getD j 0)
              (((s :: ss).map fun s => s.count).getD j 0)) ∘ Nat.succ))
          = (List.range ss.length).map fun j =>
              List.range' ((buildStartIdx (g + s.count) ss).getD j 0)
                ((ss.map fun s => s.count).getD j 0) := by
      apply List.map_congr_left
      intro j _
      simp [buildStartIdx]
    rw [hhead, htail, ih (g + s.count)]
    rw [List.map_cons, List.sum_cons, range'_append_eq]

/-- C4: remapping adds the start offset of the shard to each local index, so
the scores of shard `i` of a manifest (whose local indices are `0..count-1`)
map, order-preservingly and injectively, onto exactly the global slice
`S..S+count-1` with `S` the sum of the preceding shard counts; across all
shards the slices tile `0..totalVectors-1` with no gaps and no overlaps (the
flattened slices in shard order are exactly `range totalVectors`). -/
theorem C4_global_remapping (shards : List ManifestShard) (i : ℕ)
    (hi : i < shards.length) (sr : ShardScores K) (hidx : sr.shardIdx = i)
    (hloc : sr.scores.map (fun it => it.idx)
      = List.range ((shards.map fun s => s.count).getD i 0)) :
    ((reassignScoresToGlobalIndex (buildStartIdx 0 shards) sr).map
        fun v => v.globalIndex)
      = List.range' ((buildStartIdx 0 shards).getD i 0)
          ((shards.map fun s => s.count).getD i 0) ∧
    (buildStartIdx 0 shards).getD i 0 = ((shards.take i).map fun s => s.count).sum ∧
    ((List.range shards.length).map fun j =>
        List.range' ((buildStartIdx 0 shards).getD j 0)
          ((shards.map fun s => s.count).getD j 0)).flatten
      = List.range ((shards.map fun s => s.count).sum) := by
  refine ⟨?_, ?_, ?_⟩
  · unfold reassignScoresToGlobalIndex
    rw [List.map_map, hidx]
    have hcomp :
        ((fun v : VectorScore K => v.globalIndex) ∘ fun it : VecScore K =>
          ({ globalIndex := (buildStartIdx 0 shards).getD i 0 + it.idx,
             score := it.score } : VectorScore K))
          = (fun n => (buildStartIdx 0 shards).getD i 0 + n) ∘ fun it : VecScore K => it.idx := by
      funext it
      rfl
    rw [hcomp, ← List.map_map, hloc, ← List.range'_eq_map_range]
  · simpa using buildStartIdx_getD shards 0 i hi
  · rw [buildStartIdx_flatten_range']
    rw [List.range_eq_range']

/-- Witness for C4 at a concrete manifest of two shards with counts 2 and 3:
shard 1 (scores at local indices `0,1,2`) maps onto the global slice `2..4`,
its start offset is `2`, and the two slices tile `0..4`. -/
theorem C4_witness :
    (1 < ([⟨2, 0⟩, ⟨3, 2⟩] : List ManifestShard).length) ∧
    ((reassignScoresToGlobalIndex (buildStartIdx 0 [⟨2, 0⟩, ⟨3, 2⟩])
        (⟨1, [⟨0, (5 : ℚ)⟩, ⟨1, 7⟩, ⟨2, 9⟩]⟩ : ShardScores ℚ)).map
        (fun v => v.globalIndex)
      = List.range' ((buildStartIdx 0 [⟨2, 0⟩, ⟨3, 2⟩]).getD 1 0)
          ((([⟨2, 0⟩, ⟨3, 2⟩] : List ManifestShard).map fun s => s.count).getD 1 0)) ∧
    (buildStartIdx 0 [⟨2, 0⟩, ⟨3, 2⟩]).getD 1 0
      = ((([⟨2, 0⟩, ⟨3, 2⟩] : List ManifestShard).take 1).map fun s => s.count).sum ∧
    ((List.range ([⟨2, 0⟩, ⟨3, 2⟩] : List ManifestShard).length).map fun j =>
        List.range' ((buildStartIdx 0 [⟨2, 0⟩, ⟨3, 2⟩]).getD j 0)
          ((([⟨2, 0⟩, ⟨3, 2⟩] : List ManifestShard).map fun s => s.count).getD j 0)).flatten
      = List.range ((([⟨2, 0⟩, ⟨3, 2⟩] : List ManifestShard).map fun s => s.count).sum) := by
  refine ⟨by decide, ?_⟩
  exact C4_global_remapping [⟨2, 0⟩, ⟨3, 2⟩] 1 (by decide)
    (⟨1, [⟨0, (5 : ℚ)⟩, ⟨1, 7⟩, ⟨2, 9⟩]⟩ : ShardScores ℚ) rfl (by decide)

/-! ### C3 and C9: per-shard compute output shape and error behavior -/

theorem getD_map_range (n i : ℕ) (f : ℕ → K) (hi : i < n) :
    ((List.range n).map f).getD i 0 = f i := by
  rw [List.getD_eq_getElem?_getD]
  simp [List.getElem?_map, List.getElem?_range, hi]

/-- C3 (amended): under matching dimensions, `computeShard` succeeds and
returns `maxShardCount` scores (the whole readback buffer), whose entry `i`
is the dot product of the query with shard vector `i` for `i < count` and `0`
beyond; `computeShardUsingResidentBuffer` of the LRU engine returns exactly
`count` scores, entry `i` being the dot product with vector `i`. -/
theorem C3_computeScores_shape :
    (∀ (e : Engine K) (rec : ShardRecord K) (q : List K),
      q.length = e.vecDimension → rec.dim = e.vecDimension →
      ∃ raw, computeShard e rec q = Except.ok raw ∧
        raw.length = e.maxShardCount ∧
        ∀ i, i < e.maxShardCount →
          raw.getD i 0
            = if i < rec.count then shaderDot q rec.vectors e.vecDimension i else 0) ∧
    (∀ (rec2 : ShardGPURecord) (dim : ℕ) (q2 : List ℚ),
      (computeShardUsingResidentBuffer rec2 dim q2).length = rec2.count ∧
      ∀ i, i < rec2.count →
        (computeShardUsingResidentBuffer rec2 dim q2).getD i 0
          = shaderDot q2 rec2.vectors dim i) := by
  constructor
  · intro e rec q hq hd
    refine ⟨(List.range e.maxShardCount).map fun i =>
      if i < rec.count then shaderDot q rec.vectors e.vecDimension i else 0, ?_, ?_, ?_⟩
    · unfold computeShard
      rw [if_neg (by rw [hq]; exact fun h => h rfl),
        if_neg (by rw [hd]; exact fun h => h rfl)]
    · simp
    · intro i hi
      exact getD_map_range e.maxShardCount i _ hi
  · intro rec2 dim q2
    constructor
    · simp [computeShardUsingResidentBuffer]
    · intro i hi
      exact getD_map_range rec2.count i _ hi

/-- Witness for C3 (amended) at a pipeline-built engine with two shards of
counts 1 and 2 (`dim = 1`, so `maxShardCount = 2`). -/
theorem C3_witness :
    (([(3 : ℚ)].length = (1 : ℕ)) ∧ ((1 : ℕ) = 1)) ∧
    (∃ raw, computeShard (⟨1, 2, [⟨0, 4, 1, 1, [5]⟩, ⟨1, 8, 2, 1, [6, 7]⟩]⟩ : Engine ℚ)
        ⟨0, 4, 1, 1, [5]⟩ [3] = Except.ok raw ∧
      raw.length = 2 ∧
      ∀ i, i < 2 → raw.getD i 0 = if i < 1 then shaderDot [3] [5] 1 i else 0) ∧
    ((computeShardUsingResidentBuffer ⟨0, 1, 0, 4, 9, [2]⟩ 1 [3]).length = 1 ∧
      ∀ i, i < 1 →
        (computeShardUsingResidentBuffer ⟨0, 1, 0, 4, 9, [2]⟩ 1 [3]).getD i 0
          = shaderDot [3] [2] 1 i) := by
  refine ⟨⟨rfl, rfl⟩, ?_, ?_⟩
  · exact (C3_computeScores_shape (K := ℚ)).1
      (⟨1, 2, [⟨0, 4, 1, 1, [5]⟩, ⟨1, 8, 2, 1, [6, 7]⟩]⟩ : Engine ℚ)
      ⟨0, 4, 1, 1, [5]⟩ [3] rfl rfl
  · exact (C3_computeScores_shape (K := ℚ)).2 ⟨0, 1, 0, 4, 9, [2]⟩ 1 [3]

/-- Counterexample to C3 as stated: in a pipeline initialized with two shards
of counts 1 and 2 (so the engine's `maxShardCount` is 2), `computeShard` on
the count-1 shard returns 2 scores, not `count = 1`. -/
theorem C3_counterexample :
    initPipeline (K := ℚ) 1 [⟨1, 0⟩, ⟨2, 1⟩] (fun i => if i = 0 then [5] else [6, 7])
      = Except.ok (⟨1, 2, [⟨0, 4, 1, 1, [5]⟩, ⟨1, 8, 2, 1, [6, 7]⟩]⟩, [0, 1]) ∧
    Except.map List.length
        (computeShard (⟨1, 2, [⟨0, 4, 1, 1, [5]⟩, ⟨1, 8, 2, 1, [6, 7]⟩]⟩ : Engine ℚ)
          ⟨0, 4, 1, 1, [5]⟩ [3])
      = Except.ok 2 ∧
    (⟨0, 4, 1, 1, ([5] : List ℚ)⟩ : ShardRecord ℚ).count = 1 ∧ (2 : ℕ) ≠ 1 := by
  refine ⟨?_, ?_, rfl, by decide⟩
  · rfl
  · rfl

/-- C9 (amended): `computeTopKForResidentShard` of the LRU engine fails with
the not-resident error exactly when the shard is not resident; it performs
no dimension-EQUALITY check — a resident shard with a query LONGER than
`dim` succeeds, and a query shorter than `dim` fails only with the generic
WebGPU `writeBuffer` `OperationError`, not a dimension-mismatch error.  The
dimension-equality check lives in the record engine's `computeShard`, which
fails with its invalid-query error exactly when `query.length` differs from
the configured dimension (given a well-formed record).  With the claim's
preconditions (resident shard, `query.length = dim`) met, neither function
raises an error. -/
theorem C9_compute_error_behavior :
    (∀ (e : EngineNew) (sIdx : ℕ) (q : List ℚ) (dim topK now : ℕ),
      lookupShard e.shardCache sIdx = none →
        computeTopKForResidentShard e sIdx q dim topK now
          = Except.error "Shard not resident on GPU") ∧
    (∀ (e : EngineNew) (sIdx : ℕ) (q : List ℚ) (dim topK now : ℕ),
      lookupShard e.shardCache sIdx ≠ none → dim ≤ q.length →
        (computeTopKForResidentShard e sIdx q dim topK now).isOk = true) ∧
    (∀ (e : EngineNew) (sIdx : ℕ) (q : List ℚ) (dim topK now : ℕ),
      lookupShard e.shardCache sIdx ≠ none → q.length < dim →
        computeTopKForResidentShard e sIdx q dim topK now
          = Except.error "OperationError: writeBuffer data range exceeds source buffer") ∧
    (∀ (e : Engine K) (rec : ShardRecord K) (q : List K),
      q.length ≠ e.vecDimension →
        computeShard e rec q = Except.error "Query is invalid.") ∧
    (∀ (e : Engine K) (rec : ShardRecord K) (q : List K),
      q.length = e.vecDimension → rec.dim = e.vecDimension →
        (computeShard e rec q).isOk = true) := by
  refine ⟨?_, ?_, ?_, ?_, ?_⟩
  · intro e sIdx q dim topK now hnone
    unfold computeTopKForResidentShard
    rw [hnone]
  · intro e sIdx q dim topK now hsome hlen
    unfold computeTopKForResidentShard
    cases hl : lookupShard e.shardCache sIdx with
    | none => exact absurd hl hsome
    | some rec =>
      unfold ensureQueryAndParams
      dsimp only
      rw [if_neg (not_lt.mpr hlen)]
      rfl
  · intro e sIdx q dim topK now hsome hlen
    unfold computeTopKForResidentShard
    cases hl : lookupShard e.shardCache sIdx with
    | none => exact absurd hl hsome
    | some rec =>
      unfold ensureQueryAndParams
      dsimp only
      rw [if_pos hlen]
  · intro e rec q hq
    unfold computeShard
    rw [if_pos hq]
  · intro e rec q hq hd
    unfold computeShard
    rw [if_neg (by rw [hq]; exact fun h => h rfl),
      if_neg (by rw [hd]; exact fun h => h rfl)]
    rfl

/-- Witness for C9 (amended) at concrete inputs: a miss on an empty cache
raises the not-resident error; a resident shard with a matching-length query
computes successfully; a too-short query raises the `writeBuffer`
`OperationError`; `computeShard` rejects a wrong-length query and accepts a
matching one. -/
theorem C9_witness :
    computeTopKForResidentShard ⟨[], 0, 100, 1, 1⟩ 0 [] 1 5 7
        = Except.error "Shard not resident on GPU" ∧
    (computeTopKForResidentShard ⟨[⟨0, 1, 0, 4, 0, [2]⟩], 4, 100, 1, 1⟩ 0 [3] 1 5 7).isOk
        = true ∧
    computeTopKForResidentShard ⟨[⟨0, 1, 0, 4, 0, [2]⟩], 4, 100, 1, 1⟩ 0 [] 1 5 7
        = Except.error "OperationError: writeBuffer data range exceeds source buffer" ∧
    computeShard (⟨1, 1, []⟩ : Engine ℚ) ⟨0, 4, 1, 1, [2]⟩ []
        = Except.error "Query is invalid." ∧
    (computeShard (⟨1, 1, []⟩ : Engine ℚ) ⟨0, 4, 1, 1, [2]⟩ [3]).isOk = true := by
  refine ⟨?_, ?_, ?_, ?_, ?_⟩
  · exact (C9_compute_error_behavior (K := ℚ)).1 ⟨[], 0, 100, 1, 1⟩ 0 [] 1 5 7 rfl
  · exact (C9_compute_error_behavior (K := ℚ)).2.1
      ⟨[⟨0, 1, 0, 4, 0, [2]⟩], 4, 100, 1, 1⟩ 0 [3] 1 5 7 (by decide) (by decide)
  · exact (C9_compute_error_behavior (K := ℚ)).2.2.1
      ⟨[⟨0, 1, 0, 4, 0, [2]⟩], 4, 100, 1, 1⟩ 0 [] 1 5 7 (by decide) (by decide)
  · exact (C9_compute_error_behavior (K := ℚ)).2.2.2.1 (⟨1, 1, []⟩ : Engine ℚ)
      ⟨0, 4, 1, 1, [2]⟩ [] (by decide)
  · exact (C9_compute_error_behavior (K := ℚ)).2.2.2.2 (⟨1, 1, []⟩ : Engine ℚ)
      ⟨0, 4, 1, 1, [2]⟩ [3] rfl rfl

/-- Counterexample to C9 as stated: `computeTopKForResidentShard` called on a
resident shard of dimension 1 with a query of length 2 succeeds — no
dimension-mismatch error is raised for a query whose length differs from
`dim`, because only the first `dim` floats are written and the function
performs no dimension-equality validation. -/
theorem C9_counterexample :
    (([(3 : ℚ), 4]).length ≠ 1) ∧
    (computeTopKForResidentShard ⟨[⟨0, 1, 0, 4, 0, [2]⟩], 4, 100, 1, 1⟩ 0 [3, 4] 1 5 7).isOk
      = true := by
  constructor
  · decide
  · rfl

/-! ### C1: shape of the search result -/

theorem computeShard_eq_ok (e : Engine K) (rec : ShardRecord K) (q : List K)
    (hq : q.length = e.vecDimension) (hd : rec.dim = e.vecDimension) :
    computeShard e rec q = Except.ok ((List.range e.maxShardCount).map fun i =>
      if i < rec.count then shaderDot q rec.vectors e.vecDimension i else 0) := by
  unfold computeShard
  rw [if_neg (by rw [hq]; exact fun h => h rfl),
    if_neg (by rw [hd]; exact fun h => h rfl)]

theorem mapSetRecord_append (l : List (ShardRecord K)) (r : ShardRecord K)
    (h : r.shardIndex ∉ l.map fun x => x.shardIndex) :
    mapSetRecord l r = l ++ [r] := by
  induction l with
  | nil => rfl
  | cons x xs ih =>
    simp only [List.map_cons, List.mem_cons] at h
    push_neg at h
    unfold mapSetRecord
    rw [if_neg (fun hx => h.1 hx.symm), ih h.2]
    rfl

theorem initLoop_spec (dim : ℕ) (data : ℕ → List K) :
    ∀ (ss : List ManifestShard) (i : ℕ) (e : Engine K),
      (e.shardRecords.map fun r => r.shardIndex) = List.range i →
      ∀ e1, initLoop dim data i ss e = Except.ok e1 →
        e1.vecDimension = e.vecDimension ∧
        e1.maxShardCount = e.maxShardCount ∧
        (e1.shardRecords.map fun r => r.shardIndex) = List.range (i + ss.length) ∧
        ∃ newRecs, e1.shardRecords = e.shardRecords ++ newRecs ∧
          (newRecs.map fun r => r.count) = ss.map (fun s => s.count) ∧
          ∀ r ∈ newRecs, r.dim = dim := by
  intro ss
  induction ss with
  | nil =>
    intro i e hkeys e1 h
    cases h
    exact ⟨rfl, rfl, by simpa using hkeys, [], by simp, rfl, by simp⟩
  | cons s rest ih =>
    intro i e hkeys e1 h
    unfold initLoop at h
    unfold createBufferRecord at h
    by_cases hlen : (data i).length ≠ dim * s.count
    · rw [if_pos hlen] at h
      cases h
    · rw [if_neg hlen] at h
      have hfresh : i ∉ e.shardRecords.map fun r => r.shardIndex := by
        rw [hkeys]
        simp
      have hset : mapSetRecord e.shardRecords
          ⟨i, 4 * (data i).length, s.count, dim, data i⟩
            = e.shardRecords ++ [⟨i, 4 * (data i).length, s.count, dim, data i⟩] :=
        mapSetRecord_append _ _ hfresh
      rw [hset] at h
      have hkeys1 : ((e.shardRecords
            ++ [(⟨i, 4 * (data i).length, s.count, dim, data i⟩ : ShardRecord K)]).map
          fun r : ShardRecord K => r.shardIndex) = List.range (i + 1) := by
        rw [List.map_append, hkeys, List.range_succ]
        rfl
      obtain ⟨hv, hm, hk, newRecs, hrec, hcount, hdim⟩ :=
        ih (i + 1)
          ({ e with shardRecords :=
            e.shardRecords ++ [⟨i, 4 * (data i).length, s.count, dim, data i⟩] })
          hkeys1 e1 h
      refine ⟨hv, hm, ?_,
        (⟨i, 4 * (data i).length, s.count, dim, data i⟩ : ShardRecord K) :: newRecs,
        ?_, ?_, ?_⟩
      · have harith : i + 1 + rest.length = i + (s :: rest).length := by
          simp only [List.length_cons]
          omega
        rw [harith] at hk
        exact hk
      · rw [hrec]
        simp
      · simp only [List.map_cons, hcount]
      · intro r hr
        rcases List.mem_cons.mp hr with hr | hr
        · rw [hr]
        · exact hdim r hr

theorem computeShardsLoop_ok (e : Engine K) (qvec : List K)
    (hq : qvec.length = e.vecDimension) :
    ∀ recs : List (ShardRecord K), (∀ r ∈ recs, r.dim = e.vecDimension) →
      ∃ outs, computeShardsLoop e qvec recs = Except.ok outs ∧
        (outs.map fun o => o.count) = recs.map fun r => r.count := by
  intro recs
  induction recs with
  | nil => exact fun _ => ⟨[], rfl, rfl⟩
  | cons rec rest ih =>
    intro hd
    obtain ⟨outs, houts, hcounts⟩ := ih fun r hr => hd r (List.mem_cons_of_mem _ hr)
    refine ⟨(⟨rec.shardIndex, (List.range e.maxShardCount).map fun i =>
        if i < rec.count then shaderDot qvec rec.vectors e.vecDimension i else 0,
        rec.count⟩ : ShardComputedScores K) :: outs, ?_, ?_⟩
    · unfold computeShardsLoop
      rw [computeShard_eq_ok e rec qvec hq (hd rec (List.mem_cons_self _ _)), houts]
    · simp only [List.map_cons, hcounts]

theorem search_ok_spec (e : Engine K) (sm : List ℕ) (qvec : List K)
    (hq : qvec.length = e.vecDimension)
    (hd : ∀ r ∈ e.shardRecords, r.dim = e.vecDimension) :
    ∃ res, search e sm qvec = Except.ok res ∧
      res.length = (e.shardRecords.map fun r => r.count).sum ∧
      res.Sorted fun a b => b.score ≤ a.score := by
  obtain ⟨outs, houts, hcounts⟩ := computeShardsLoop_ok e qvec hq e.shardRecords hd
  refine ⟨sortGlobalDesc ((outs.map fun out =>
      reassignScoresToGlobalIndex sm
        (extractShardScores out.shardIndex out.rawScores out.count)).flatten),
    ?_, ?_, sortGlobalDesc_sorted _⟩
  · unfold search
    rw [houts]
  · have hlen : ∀ out : ShardComputedScores K,
        (reassignScoresToGlobalIndex sm
          (extractShardScores out.shardIndex out.rawScores out.count)).length
          = out.count := by
      intro out
      unfold reassignScoresToGlobalIndex extractShardScores
      rw [List.length_map]
      dsimp only
      rw [sortByScoreDesc_length]
      simp
    rw [(sortGlobalDesc_perm _).length_eq, List.length_flatten, List.map_map]
    rw [← hcounts]
    congr 1
    apply List.map_congr_left
    intro out _
    exact hlen out

/-- C1 (amended): on an initialized pipeline, `search` — which takes only the
query text — succeeds for every query and returns the scores of ALL
`totalVectors = sum of manifest shard counts` vectors, sorted by descending
score; it has no `topK` parameter and performs no truncation (the caller
truncates, e.g. through `DataIndexStream`). -/
theorem C1_search_returns_all_sorted (vocab : String → Option ℕ) (idf : List ℚ)
    (dim : ℕ) (shards : List ManifestShard) (data : ℕ → List ℝ) (e : Engine ℝ)
    (sm : List ℕ) (hdim : idf.length = dim)
    (hinit : initPipeline dim shards data = Except.ok (e, sm))
    (tokens : List String) :
    ∃ res, searchText vocab idf e sm tokens = Except.ok res ∧
      res.length = (shards.map fun s => s.count).sum ∧
      res.Sorted fun a b => b.score ≤ a.score := by
  unfold initPipeline at hinit
  cases hloop : initLoop dim data 0 shards
      { vecDimension := dim, maxShardCount := maxCount shards, shardRecords := [] } with
  | error err => rw [hloop] at hinit; cases hinit
  | ok e0 =>
    rw [hloop] at hinit
    injection hinit with hpair
    have he : e = e0 := (congrArg Prod.fst hpair).symm
    obtain ⟨hv, _, _, newRecs, hrecs, hcounts, hdims⟩ :=
      initLoop_spec dim data shards 0 _ (by simp) e0 hloop
    have hvec : e.vecDimension = dim := by rw [he, hv]
    have hrecs2 : e.shardRecords = newRecs := by rw [he, hrecs]; rfl
    obtain ⟨res, hres, hlen, hsorted⟩ :=
      search_ok_spec e sm (vectorize vocab idf tokens)
        (by rw [vectorize_length, hdim, hvec])
        (by rw [hrecs2, hvec]; exact hdims)
    refine ⟨res, hres, ?_, hsorted⟩
    rw [hlen, hrecs2, hcounts]

/-- Witness for C1 (amended) at a concrete one-shard pipeline and the empty
query. -/
theorem C1_witness :
    ∃ res, searchText (fun _ => none) [1]
        ⟨1, 1, [⟨0, 4, 1, 1, [5]⟩]⟩ [0] [] = Except.ok res ∧
      res.length = (([⟨1, 0⟩] : List ManifestShard).map fun s => s.count).sum ∧
      res.Sorted fun a b => b.score ≤ a.score :=
  C1_search_returns_all_sorted (fun _ => none) [1] 1 [⟨1, 0⟩] (fun _ => [5])
    ⟨1, 1, [⟨0, 4, 1, 1, [5]⟩]⟩ [0] rfl rfl []

/-- Counterexample to C1 as stated: `search` has no `topK` parameter; on a
one-vector corpus it returns 1 result for every query, whereas the claim
demands `min(topK, totalVectors) = 0` results for `topK = 0`. -/
theorem C1_counterexample :
    initPipeline 1 [⟨1, 0⟩] (fun _ => [(5 : ℝ)])
      = Except.ok (⟨1, 1, [⟨0, 4, 1, 1, [5]⟩]⟩, [0]) ∧
    Except.map List.length
        (searchText (fun _ => none) [1] ⟨1, 1, [⟨0, 4, 1, 1, [5]⟩]⟩ [0] [])
      = Except.ok 1 ∧
    (1 : ℕ) ≠ min 0 ((([⟨1, 0⟩] : List ManifestShard).map fun s => s.count).sum) := by
  refine ⟨rfl, ?_, by decide⟩
  have hq : vectorize (fun _ => none) [1] [] = List.replicate 1 0 :=
    vectorize_eq_zero (fun _ => none) [1] [] (Or.inl rfl)
  unfold searchText
  rw [hq]
  rfl

/-! ### C8: dependence of `search` on shard processing order -/

theorem computeShardsLoop_eq_map (e : Engine K) (qvec : List K)
    (hq : qvec.length = e.vecDimension) :
    ∀ recs : List (ShardRecord K), (∀ r ∈ recs, r.dim = e.vecDimension) →
      computeShardsLoop e qvec recs = Except.ok (recs.map fun rec =>
        (⟨rec.shardIndex, (List.range e.maxShardCount).map fun i =>
          if i < rec.count then shaderDot qvec rec.vectors e.vecDimension i else 0,
          rec.count⟩ : ShardComputedScores K)) := by
  intro recs
  induction recs with
  | nil => exact fun _ => rfl
  | cons rec rest ih =>
    intro hd
    unfold computeShardsLoop
    rw [computeShard_eq_ok e rec qvec hq (hd rec (List.mem_cons_self _ _)),
      ih fun r hr => hd r (List.mem_cons_of_mem _ hr)]
    rfl

theorem search_mk_eq (d m : ℕ) (recs : List (ShardRecord K)) (sm : List ℕ)
    (qvec : List K) (hq : qvec.length = d) (hd : ∀ r ∈ recs, r.dim = d) :
    search ⟨d, m, recs⟩ sm qvec = Except.ok (sortGlobalDesc ((recs.map fun rec =>
      reassignScoresToGlobalIndex sm (extractShardScores rec.shardIndex
        ((List.range m).map fun i =>
          if i < rec.count then shaderDot qvec rec.vectors d i else 0)
        rec.count)).flatten)) := by
  unfold search
  rw [computeShardsLoop_eq_map ⟨d, m, recs⟩ qvec hq recs hd]
  dsimp only
  rw [List.map_map]
  rfl

theorem sorted_nodup_scores_eq (l1 l2 : List (VectorScore K))
    (hp : List.Perm l1 l2)
    (h1 : l1.Sorted fun a b => b.score ≤ a.score)
    (h2 : l2.Sorted fun a b => b.score ≤ a.score)
    (hnd : (l1.map fun v => v.score).Nodup) : l1 = l2 := by
  have hnd2 : (l2.map fun v => v.score).Nodup := ((hp.map _).nodup_iff).mp hnd
  have hpw1 : l1.Pairwise fun a b => a.score ≠ b.score := List.pairwise_map.mp hnd
  have hpw2 : l2.Pairwise fun a b => a.score ≠ b.score := List.pairwise_map.mp hnd2
  have hs1 : l1.Pairwise fun a b => b.score < a.score :=
    (h1.and hpw1).imp fun h => lt_of_le_of_ne h.1 (Ne.symm h.2)
  have hs2 : l2.Pairwise fun a b => b.score < a.score :=
    (h2.and hpw2).imp fun h => lt_of_le_of_ne h.1 (Ne.symm h.2)
  haveI : IsAntisymm (VectorScore K) fun a b => b.score < a.score :=
    ⟨fun _ _ hab hba => absurd (lt_trans hab hba) (lt_irrefl _)⟩
  exact List.eq_of_perm_of_sorted hp hs1 hs2

/-- C8 (amended): permuting the shard processing order always yields a
permutation of the search results, and yields the identical result sequence
whenever all result scores are pairwise distinct.  (With tied scores the
order of tied entries follows the stable global sort and hence the
processing order, as the counterexample shows.) -/
theorem C8_search_order_agnostic_up_to_ties (d m : ℕ)
    (recs recs2 : List (ShardRecord K)) (hperm : List.Perm recs recs2)
    (sm : List ℕ) (qvec : List K) (hq : qvec.length = d)
    (hd : ∀ r ∈ recs, r.dim = d) :
    ∃ res res2,
      search ⟨d, m, recs⟩ sm qvec = Except.ok res ∧
      search ⟨d, m, recs2⟩ sm qvec = Except.ok res2 ∧
      List.Perm res res2 ∧
      ((res.map fun v => v.score).Nodup → res = res2) := by
  have hd2 : ∀ r ∈ recs2, r.dim = d := fun r hr => hd r (hperm.mem_iff.mpr hr)
  have h1 := search_mk_eq d m recs sm qvec hq hd
  have h2 := search_mk_eq d m recs2 sm qvec hq hd2
  have hAB := ((hperm.map fun rec =>
    reassignScoresToGlobalIndex sm (extractShardScores rec.shardIndex
      ((List.range m).map fun i =>
        if i < rec.count then shaderDot qvec rec.vectors d i else 0)
      rec.count)).flatten)
  have hres := (sortGlobalDesc_perm _).trans (hAB.trans (sortGlobalDesc_perm _).symm)
  exact ⟨_, _, h1, h2, hres,
    fun hnd => sorted_nodup_scores_eq _ _ hres (sortGlobalDesc_sorted _)
      (sortGlobalDesc_sorted _) hnd⟩

/-- Witness for C8 (amended): two one-vector shards with distinct scores; the
swapped processing order yields a permutation, and — scores being distinct —
the identical result sequence. -/
theorem C8_witness :
    ∃ res res2,
      search (⟨1, 1, [⟨0, 4, 1, 1, [1]⟩, ⟨1, 4, 1, 1, [2]⟩]⟩ : Engine ℚ) [0, 1] [1]
        = Except.ok res ∧
      search (⟨1, 1, [⟨1, 4, 1, 1, [2]⟩, ⟨0, 4, 1, 1, [1]⟩]⟩ : Engine ℚ) [0, 1] [1]
        = Except.ok res2 ∧
      List.Perm res res2 ∧
      ((res.map fun v => v.score).Nodup → res = res2) :=
  C8_search_order_agnostic_up_to_ties 1 1
    [⟨0, 4, 1, 1, [1]⟩, ⟨1, 4, 1, 1, [2]⟩] [⟨1, 4, 1, 1, [2]⟩, ⟨0, 4, 1, 1, [1]⟩]
    (List.Perm.swap _ _ _) [0, 1] [1] rfl (by decide)

/-- Counterexample to C8 as stated: on two one-vector shards holding the same
vector, the empty query scores both vectors equally, and the search result
sequence follows the shard processing order — the two orders give different
sequences (`[0, 1]` versus `[1, 0]` as global indices). -/
theorem C8_counterexample :
    List.Perm [(⟨0, 4, 1, 1, [5]⟩ : ShardRecord ℝ), ⟨1, 4, 1, 1, [5]⟩]
      [⟨1, 4, 1, 1, [5]⟩, ⟨0, 4, 1, 1, [5]⟩] ∧
    Except.map (fun res => res.map fun v : VectorScore ℝ => v.globalIndex)
        (searchText (fun _ => none) [1]
          ⟨1, 1, [⟨0, 4, 1, 1, [5]⟩, ⟨1, 4, 1, 1, [5]⟩]⟩ [0, 1] [])
      = Except.ok [0, 1] ∧
    Except.map (fun res => res.map fun v : VectorScore ℝ => v.globalIndex)
        (searchText (fun _ => none) [1]
          ⟨1, 1, [⟨1, 4, 1, 1, [5]⟩, ⟨0, 4, 1, 1, [5]⟩]⟩ [0, 1] [])
      = Except.ok [1, 0] ∧
    ([0, 1] : List ℕ) ≠ [1, 0] := by
  have hq : vectorize (fun _ => none) [1] [] = List.replicate 1 0 :=
    vectorize_eq_zero (fun _ => none) [1] [] (Or.inl rfl)
  have hdot : ∀ vs : List ℝ, shaderDot (List.replicate 1 (0 : ℝ)) vs 1 0 = 0 := by
    intro vs
    simp [shaderDot]
  refine ⟨List.Perm.swap _ _ _, ?_, ?_, by decide⟩
  · unfold searchText
    rw [hq]
    simp [search, computeShardsLoop, computeShard, extractShardScores,
      reassignScoresToGlobalIndex, sortGlobalDesc, sortByScoreDesc,
      List.insertionSort, List.orderedInsert, hdot, Except.map]
  · unfold searchText
    rw [hq]
    simp [search, computeShardsLoop, computeShard, extractShardScores,
      reassignScoresToGlobalIndex, sortGlobalDesc, sortByScoreDesc,
      List.insertionSort, List.orderedInsert, hdot, Except.map]

/-! ### LRU engine lemmas, C2 and C7 -/

theorem sumBytes_nonneg (l : List ShardGPURecord) : 0 ≤ sumBytes l := by
  apply List.sum_nonneg
  intro x hx
  rcases List.mem_map.mp hx with ⟨r, _, hr⟩
  rw [← hr]
  exact Int.ofNat_nonneg _

theorem sumBytes_perm (l1 l2 : List ShardGPURecord) (hp : List.Perm l1 l2) :
    sumBytes l1 = sumBytes l2 :=
  (hp.map _).sum_eq

theorem sumBytes_append (l1 l2 : List ShardGPURecord) :
    sumBytes (l1 ++ l2) = sumBytes l1 + sumBytes l2 := by
  unfold sumBytes
  rw [List.map_append, List.sum_append]

theorem lookupShard_none_iff (k : ℕ) :
    ∀ l : List ShardGPURecord, lookupShard l k = none ↔ k ∉ cacheKeys l := by
  intro l
  induction l with
  | nil => simp [lookupShard, cacheKeys]
  | cons r rest ih =>
    unfold lookupShard
    by_cases hr : r.shardIndex = k
    · rw [if_pos hr]
      simp [cacheKeys, hr]
    · rw [if_neg hr]
      rw [ih]
      simp only [cacheKeys, List.map_cons, List.mem_cons]
      constructor
      · intro h hk
        rcases hk with hk | hk
        · exact hr hk.symm
        · exact h hk
      · intro h hk
        exact h (Or.inr hk)

theorem deleteShard_eq_erase (r : ShardGPURecord) :
    ∀ l : List ShardGPURecord, (cacheKeys l).Nodup → r ∈ l →
      deleteShard l r.shardIndex = l.erase r := by
  intro l
  induction l with
  | nil => intro _ hr; cases hr
  | cons c cs ih =>
    intro hnd hr
    have hnd2 : (cacheKeys cs).Nodup := (List.nodup_cons.mp hnd).2
    have hcnotin : c.shardIndex ∉ cacheKeys cs := (List.nodup_cons.mp hnd).1
    unfold deleteShard
    by_cases hc : c.shardIndex = r.shardIndex
    · rw [if_pos hc]
      have hrc : r = c := by
        rcases List.mem_cons.mp hr with h | h
        · exact h
        · exfalso
          apply hcnotin
          rw [hc]
          exact List.mem_map.mpr ⟨r, h, rfl⟩
      rw [hrc, List.erase_cons_head]
    · rw [if_neg hc]
      have hrcs : r ∈ cs := by
        rcases List.mem_cons.mp hr with h | h
        · exact absurd (congrArg (fun x => x.shardIndex) h).symm hc
        · exact h
      have hne : c ≠ r := fun h => hc (congrArg (fun x => x.shardIndex) h)
      rw [List.erase_cons_tail, ih hnd2 hrcs]
      simp [hne]

theorem refreshShard_keys (count startIndex now : ℕ) (k : ℕ) :
    ∀ l : List ShardGPURecord,
      cacheKeys (refreshShard count startIndex now l k) = cacheKeys l := by
  intro l
  induction l with
  | nil => rfl
  | cons r rest ih =>
    unfold refreshShard
    by_cases hr : r.shardIndex = k
    · rw [if_pos hr]
      simp [cacheKeys]
    · rw [if_neg hr]
      simp only [cacheKeys, List.map_cons] at ih ⊢
      rw [ih]

theorem refreshShard_sumBytes (count startIndex now : ℕ) (k : ℕ) :
    ∀ l : List ShardGPURecord,
      sumBytes (refreshShard count startIndex now l k) = sumBytes l := by
  intro l
  induction l with
  | nil => rfl
  | cons r rest ih =>
    unfold refreshShard
    by_cases hr : r.shardIndex = k
    · rw [if_pos hr]
      simp [sumBytes]
    · rw [if_neg hr]
      simp only [sumBytes, List.map_cons, List.sum_cons] at ih ⊢
      rw [ih]

theorem evictLoop_spec (maxBytes needed : ℤ) :
    ∀ (entries : List ShardGPURecord) (cache : List ShardGPURecord) (total : ℤ),
      List.Perm cache entries → (cacheKeys cache).Nodup →
      total = sumBytes cache →
      (evictLoop maxBytes needed entries cache total).1
          = entries.take (evictLoop maxBytes needed entries cache total).1.length ∧
      List.Perm (evictLoop maxBytes needed entries cache total).2.1
          (entries.drop (evictLoop maxBytes needed entries cache total).1.length) ∧
      (evictLoop maxBytes needed entries cache total).2.2.1
          = sumBytes (evictLoop maxBytes needed entries cache total).2.1 ∧
      ((evictLoop maxBytes needed entries cache total).2.2.2 = true →
        (evictLoop maxBytes needed entries cache total).2.2.1 + needed ≤ maxBytes) ∧
      ((evictLoop maxBytes needed entries cache total).2.2.2 = false →
        (evictLoop maxBytes needed entries cache total).1 = entries) := by
  intro entries
  induction entries with
  | nil =>
    intro cache total hperm hnd htotal
    refine ⟨rfl, ?_, ?_, ?_, fun _ => rfl⟩
    · exact hperm
    · exact htotal
    · intro h
      cases h
  | cons r rest ih =>
    intro cache total hperm hnd htotal
    have hrmem : r ∈ cache := hperm.mem_iff.mpr (List.mem_cons_self _ _)
    have hdel : deleteShard cache r.shardIndex = cache.erase r :=
      deleteShard_eq_erase r cache hnd hrmem
    have hperm1 : List.Perm (deleteShard cache r.shardIndex) rest := by
      rw [hdel]
      have h1 : List.Perm cache (r :: cache.erase r) := List.perm_cons_erase hrmem
      have h2 : List.Perm (r :: cache.erase r) (r :: rest) := h1.symm.trans hperm
      exact (List.perm_cons r).mp h2
    have hnd1 : (cacheKeys (deleteShard cache r.shardIndex)).Nodup := by
      have hkeysperm : List.Perm (cacheKeys cache) (cacheKeys (r :: rest)) :=
        hperm.map _
      have hall : (cacheKeys (r :: rest)).Nodup := hkeysperm.nodup_iff.mp hnd
      have hrest : (cacheKeys rest).Nodup := (List.nodup_cons.mp hall).2
      have hmap : List.Perm (cacheKeys (deleteShard cache r.shardIndex))
          (cacheKeys rest) := hperm1.map _
      exact hmap.nodup_iff.mpr hrest
    have htotal1 : total - (r.byteSize : ℤ) = sumBytes (deleteShard cache r.shardIndex) := by
      rw [hdel, htotal]
      have h1 : List.Perm cache (r :: cache.erase r) := List.perm_cons_erase hrmem
      rw [sumBytes_perm cache (r :: cache.erase r) h1]
      simp [sumBytes]
    unfold evictLoop
    dsimp only
    by_cases hfit : total - (r.byteSize : ℤ) + needed ≤ maxBytes
    · rw [if_pos hfit]
      refine ⟨rfl, ?_, ?_, fun _ => hfit, ?_⟩
      · simpa using hperm1
      · exact htotal1
      · intro h
        cases h
    · rw [if_neg hfit]
      obtain ⟨ha, hb, hc, hd, he⟩ :=
        ih (deleteShard cache r.shardIndex) (total - (r.byteSize : ℤ))
          hperm1 hnd1 htotal1
      refine ⟨?_, ?_, hc, hd, ?_⟩
      · simp only [List.length_cons, List.take_succ_cons]
        rw [← ha]
      · simp only [List.length_cons, List.drop_succ_cons]
        exact hb
      · intro h
        rw [he h]

theorem cacheKeys_drop_nodup (e : EngineNew)
    (hkeys : (cacheKeys e.shardCache).Nodup) (n : ℕ)
    (l : List ShardGPURecord)
    (hp : List.Perm l ((sortByLastUsed e.shardCache).drop n)) :
    (cacheKeys l).Nodup := by
  have hsortperm : List.Perm (sortByLastUsed e.shardCache) e.shardCache :=
    List.perm_insertionSort _ _
  have hkeysperm : List.Perm (cacheKeys (sortByLastUsed e.shardCache))
      (cacheKeys e.shardCache) := hsortperm.map _
  have hnds : (cacheKeys (sortByLastUsed e.shardCache)).Nodup :=
    hkeysperm.nodup_iff.mpr hkeys
  have hsub : List.Sublist (cacheKeys ((sortByLastUsed e.shardCache).drop n))
      (cacheKeys (sortByLastUsed e.shardCache)) := (List.drop_sublist n _).map _
  have hdrop : (cacheKeys ((sortByLastUsed e.shardCache).drop n)).Nodup :=
    List.Nodup.sublist hsub hnds
  have hkeysdrop : List.Perm (cacheKeys l)
      (cacheKeys ((sortByLastUsed e.shardCache).drop n)) := hp.map _
  exact hkeysdrop.nodup_iff.mpr hdrop

theorem evictIfNeeded_spec (e : EngineNew) (needed : ℤ)
    (hkeys : (cacheKeys e.shardCache).Nodup)
    (htotal : e.totalGpuBytes = sumBytes e.shardCache) :
    (evictIfNeeded e needed).2.1
        = (sortByLastUsed e.shardCache).take (evictIfNeeded e needed).2.1.length ∧
    List.Perm (evictIfNeeded e needed).1.shardCache
        ((sortByLastUsed e.shardCache).drop (evictIfNeeded e needed).2.1.length) ∧
    (evictIfNeeded e needed).1.totalGpuBytes
        = sumBytes (evictIfNeeded e needed).1.shardCache ∧
    (cacheKeys (evictIfNeeded e needed).1.shardCache).Nodup ∧
    (evictIfNeeded e needed).1.maxGpuBytes = e.maxGpuBytes ∧
    (evictIfNeeded e needed).1.maxDim = e.maxDim ∧
    (evictIfNeeded e needed).1.maxShardCount = e.maxShardCount ∧
    ((evictIfNeeded e needed).2.2 = none →
      (evictIfNeeded e needed).1.totalGpuBytes + needed ≤ e.maxGpuBytes) ∧
    ((evictIfNeeded e needed).2.2 ≠ none →
      (evictIfNeeded e needed).1.shardCache = []) ∧
    (e.maxGpuBytes < needed →
      (evictIfNeeded e needed).2.2.isSome = true ∧
      List.Perm (evictIfNeeded e needed).2.1 e.shardCache) := by
  have hsortperm : List.Perm (sortByLastUsed e.shardCache) e.shardCache :=
    List.perm_insertionSort _ _
  unfold evictIfNeeded
  split
  next hroom =>
    refine ⟨rfl, ?_, htotal, hkeys, rfl, rfl, rfl, fun _ => hroom,
      fun hc => absurd rfl hc, fun hbig => ?_⟩
    · simpa using hsortperm.symm
    · exfalso
      have h0 : 0 ≤ sumBytes e.shardCache := sumBytes_nonneg _
      rw [htotal] at hroom
      omega
  next hroom =>
    obtain ⟨ha, hb, hc, hd, he⟩ :=
      evictLoop_spec e.maxGpuBytes needed (sortByLastUsed e.shardCache)
        e.shardCache e.totalGpuBytes hsortperm.symm hkeys htotal
    dsimp only
    have hcachenil : (evictLoop e.maxGpuBytes needed (sortByLastUsed e.shardCache)
          e.shardCache e.totalGpuBytes).2.2.2 = false →
        (evictLoop e.maxGpuBytes needed (sortByLastUsed e.shardCache)
          e.shardCache e.totalGpuBytes).2.1 = [] := by
      intro hfound
      apply List.Perm.eq_nil
      have hball := hb
      rw [he hfound] at hball
      simpa [List.drop_length] using hball
    have hnonneg : 0 ≤ (evictLoop e.maxGpuBytes needed (sortByLastUsed e.shardCache)
        e.shardCache e.totalGpuBytes).2.2.1 := by
      rw [hc]
      exact sumBytes_nonneg _
    split
    next hfound =>
      refine ⟨ha, hb, hc, cacheKeys_drop_nodup e hkeys _ _ hb, rfl, rfl, rfl,
        fun _ => hd hfound, fun hcon => absurd rfl hcon, fun hbig => ?_⟩
      exfalso
      have := hd hfound
      omega
    next hfound =>
      have hfoundf : (evictLoop e.maxGpuBytes needed (sortByLastUsed e.shardCache)
          e.shardCache e.totalGpuBytes).2.2.2 = false := by
        revert hfound
        cases (evictLoop e.maxGpuBytes needed (sortByLastUsed e.shardCache)
          e.shardCache e.totalGpuBytes).2.2.2 <;> simp
      have hall : (evictLoop e.maxGpuBytes needed (sortByLastUsed e.shardCache)
          e.shardCache e.totalGpuBytes).1 = sortByLastUsed e.shardCache := he hfoundf
      split
      next hover =>
        refine ⟨ha, hb, hc, cacheKeys_drop_nodup e hkeys _ _ hb, rfl, rfl, rfl,
          fun hcon => absurd hcon (Option.some_ne_none _),
          fun _ => hcachenil hfoundf, fun hbig => ?_⟩
        constructor
        · rfl
        · rw [hall]
          exact hsortperm
      next hover =>
        refine ⟨ha, hb, hc, cacheKeys_drop_nodup e hkeys _ _ hb, rfl, rfl, rfl,
          fun _ => by dsimp only; omega, fun hcon => absurd rfl hcon, fun hbig => ?_⟩
        exfalso
        omega

theorem cacheKeys_mem_of_evict (e : EngineNew) (n : ℕ) (l : List ShardGPURecord)
    (hp : List.Perm l ((sortByLastUsed e.shardCache).drop n)) (k : ℕ)
    (hk : k ∈ cacheKeys l) : k ∈ cacheKeys e.shardCache := by
  have h1 : List.Perm (cacheKeys l)
      (cacheKeys ((sortByLastUsed e.shardCache).drop n)) := hp.map _
  have h2 : k ∈ cacheKeys ((sortByLastUsed e.shardCache).drop n) := h1.mem_iff.mp hk
  have hsub : List.Sublist (cacheKeys ((sortByLastUsed e.shardCache).drop n))
      (cacheKeys (sortByLastUsed e.shardCache)) := (List.drop_sublist n _).map _
  have h3 : k ∈ cacheKeys (sortByLastUsed e.shardCache) := hsub.mem h2
  have h4 : List.Perm (cacheKeys (sortByLastUsed e.shardCache))
      (cacheKeys e.shardCache) := (List.perm_insertionSort _ _).map _
  exact h4.mem_iff.mp h3

theorem uploadShardToGPU_wf (e : EngineNew) (sIdx : ℕ) (v : List ℚ)
    (dim count startIndex now : ℕ) (hwf : engineWellFormed e) :
    engineWellFormed (uploadShardToGPU e sIdx v dim count startIndex now).1 ∧
    (uploadShardToGPU e sIdx v dim count startIndex now).1.maxGpuBytes
      = e.maxGpuBytes := by
  obtain ⟨hk, ht, h0, hb⟩ := hwf
  unfold uploadShardToGPU
  cases hl : lookupShard e.shardCache sIdx with
  | some r =>
    dsimp only
    refine ⟨⟨?_, ?_, h0, ?_⟩, rfl⟩
    · rw [refreshShard_keys]
      exact hk
    · rw [refreshShard_sumBytes]
      exact ht
    · rw [refreshShard_sumBytes]
      exact hb
  | none =>
    obtain ⟨_, hev2, hev3, hev4, hev5, _, _, hev8, hev9, _⟩ :=
      evictIfNeeded_spec e ((4 * v.length : ℕ) : ℤ) hk ht
    dsimp only
    cases herr : (evictIfNeeded e ((4 * v.length : ℕ) : ℤ)).2.2 with
    | some msg =>
      dsimp only
      have hnil : (evictIfNeeded e ((4 * v.length : ℕ) : ℤ)).1.shardCache = [] := by
        apply hev9
        rw [herr]
        simp
      refine ⟨⟨hev4, hev3, ?_, ?_⟩, hev5⟩
      · rw [hev5]
        exact h0
      · rw [hnil, hev5]
        simpa [sumBytes] using h0
    | none =>
      have hroom : (evictIfNeeded e ((4 * v.length : ℕ) : ℤ)).1.totalGpuBytes
          + ((4 * v.length : ℕ) : ℤ) ≤ e.maxGpuBytes := hev8 herr
      have hfresh : sIdx ∉ cacheKeys
          (evictIfNeeded e ((4 * v.length : ℕ) : ℤ)).1.shardCache := by
        intro hmem
        have : sIdx ∈ cacheKeys e.shardCache :=
          cacheKeys_mem_of_evict e _ _ hev2 sIdx hmem
        exact ((lookupShard_none_iff sIdx e.shardCache).mp hl) this
      have hkeyseq : cacheKeys
          ((evictIfNeeded e ((4 * v.length : ℕ) : ℤ)).1.shardCache
            ++ [⟨sIdx, count, startIndex, 4 * v.length, now, v⟩])
          = cacheKeys (evictIfNeeded e ((4 * v.length : ℕ) : ℤ)).1.shardCache
            ++ [sIdx] := by
        simp [cacheKeys]
      have hsumeq : sumBytes
          ((evictIfNeeded e ((4 * v.length : ℕ) : ℤ)).1.shardCache
            ++ [⟨sIdx, count, startIndex, 4 * v.length, now, v⟩])
          = sumBytes (evictIfNeeded e ((4 * v.length : ℕ) : ℤ)).1.shardCache
            + ((4 * v.length : ℕ) : ℤ) := by

        rw [sumBytes_append]
        simp [sumBytes]
      dsimp only
      split
      · refine ⟨⟨?_, ?_, ?_, ?_⟩, hev5⟩
        · rw [hkeyseq]
          exact hev4.append (List.nodup_singleton _) (List.disjoint_singleton.mpr hfresh)
        · rw [hsumeq, hev3]
        · rw [hev5]
          exact h0
        · rw [hsumeq, hev5, ← hev3]
          exact hroom
      · refine ⟨⟨?_, ?_, ?_, ?_⟩, hev5⟩
        · rw [hkeyseq]
          exact hev4.append (List.nodup_singleton _) (List.disjoint_singleton.mpr hfresh)
        · rw [hsumeq, hev3]
        · rw [hev5]
          exact h0
        · rw [hsumeq, hev5, ← hev3]
          exact hroom

theorem runUploads_wf (calls : List UploadCall) :
    ∀ e : EngineNew, engineWellFormed e →
      engineWellFormed (runUploads e calls) ∧
      (runUploads e calls).maxGpuBytes = e.maxGpuBytes := by
  induction calls with
  | nil => exact fun e hwf => ⟨hwf, rfl⟩
  | cons c cs ih =>
    intro e hwf
    obtain ⟨hstep, hmax⟩ :=
      uploadShardToGPU_wf e c.shardIndex c.shardVectors c.dim c.count
        c.startIndex c.now hwf
    obtain ⟨hrec, hrecmax⟩ := ih _ hstep
    exact ⟨hrec, by rw [show runUploads e (c :: cs)
      = runUploads (uploadShardToGPU e c.shardIndex c.shardVectors c.dim c.count
        c.startIndex c.now).1 cs from rfl, hrecmax, hmax]⟩

theorem initEngineNew_wf (B : ℤ) (hB : 0 ≤ B) (dimHint maxShardCountHint : ℕ) :
    engineWellFormed (initEngineNew B dimHint maxShardCountHint) := by
  refine ⟨by simp [initEngineNew, cacheKeys], rfl, hB, ?_⟩
  simpa [initEngineNew, sumBytes] using hB

theorem upload_oversized_fails (e : EngineNew) (sIdx : ℕ) (v : List ℚ)
    (dim count startIndex now : ℕ) (hwf : engineWellFormed e)
    (hnone : lookupShard e.shardCache sIdx = none)
    (hbig : e.maxGpuBytes < ((4 * v.length : ℕ) : ℤ)) :
    (uploadShardToGPU e sIdx v dim count startIndex now).2.2.isSome = true ∧
    (uploadShardToGPU e sIdx v dim count startIndex now).1.shardCache = [] ∧
    List.Perm (uploadShardToGPU e sIdx v dim count startIndex now).2.1
      e.shardCache := by
  obtain ⟨hk, ht, h0, hb⟩ := hwf
  obtain ⟨_, _, _, _, _, _, _, _, hev9, hev10⟩ :=
    evictIfNeeded_spec e ((4 * v.length : ℕ) : ℤ) hk ht
  obtain ⟨hsome, hperm⟩ := hev10 hbig
  unfold uploadShardToGPU
  rw [hnone]
  dsimp only
  cases herr : (evictIfNeeded e ((4 * v.length : ℕ) : ℤ)).2.2 with
  | none =>
    rw [herr] at hsome
    simp at hsome
  | some msg =>
    dsimp only
    refine ⟨rfl, ?_, hperm⟩
    apply hev9
    rw [herr]
    simp

/-- C2 (amended): for every non-negative byte budget `B` and every upload
sequence from a fresh engine, the aggregate resident bytes never exceed `B`
after any upload call; and an upload of a NOT-already-resident shard whose
byte size alone exceeds `B` throws the capacity error after evicting every
other resident shard (the already-resident case, which the original claim
also covered, returns successfully without any check — see the
counterexample). -/
theorem C2_byte_budget_and_oversized_upload (B : ℤ) (hB : 0 ≤ B)
    (dimHint maxShardCountHint : ℕ) (calls : List UploadCall) :
    sumBytes (runUploads (initEngineNew B dimHint maxShardCountHint) calls).shardCache
        ≤ B ∧
    ∀ c : UploadCall,
      lookupShard (runUploads (initEngineNew B dimHint maxShardCountHint) calls).shardCache
          c.shardIndex = none →
      B < ((4 * c.shardVectors.length : ℕ) : ℤ) →
      (uploadShardToGPU (runUploads (initEngineNew B dimHint maxShardCountHint) calls)
          c.shardIndex c.shardVectors c.dim c.count c.startIndex c.now).2.2.isSome
          = true ∧
      (uploadShardToGPU (runUploads (initEngineNew B dimHint maxShardCountHint) calls)
          c.shardIndex c.shardVectors c.dim c.count c.startIndex c.now).1.shardCache
          = [] ∧
      List.Perm (uploadShardToGPU (runUploads (initEngineNew B dimHint maxShardCountHint)
          calls) c.shardIndex c.shardVectors c.dim c.count c.startIndex c.now).2.1
        (runUploads (initEngineNew B dimHint maxShardCountHint) calls).shardCache := by
  obtain ⟨hwf, hmax⟩ :=
    runUploads_wf calls _ (initEngineNew_wf B hB dimHint maxShardCountHint)
  constructor
  · have hle := hwf.2.2.2
    rw [hmax] at hle
    exact hle
  · intro c hnone hbig
    have hbig2 : (runUploads (initEngineNew B dimHint maxShardCountHint)
        calls).maxGpuBytes < ((4 * c.shardVectors.length : ℕ) : ℤ) := by
      rw [hmax]
      exact hbig
    exact upload_oversized_fails _ _ _ _ _ _ _ hwf hnone hbig2

/-- Witness for C2 (amended) at budget `0`, the empty upload sequence, and a
4-byte upload. -/
theorem C2_witness :
    sumBytes (runUploads (initEngineNew 0 1 1) []).shardCache ≤ 0 ∧
    ((uploadShardToGPU (runUploads (initEngineNew 0 1 1) []) 0 [1] 1 1 0 0).2.2.isSome
        = true ∧
      (uploadShardToGPU (runUploads (initEngineNew 0 1 1) []) 0 [1] 1 1 0 0).1.shardCache
        = [] ∧
      List.Perm (uploadShardToGPU (runUploads (initEngineNew 0 1 1) []) 0 [1] 1 1 0 0).2.1
        (runUploads (initEngineNew 0 1 1) []).shardCache) := by
  obtain ⟨h1, h2⟩ := C2_byte_budget_and_oversized_upload 0 (le_refl 0) 1 1 []
  exact ⟨h1, h2 ⟨0, [1], 1, 1, 0, 0⟩ rfl (by decide)⟩

/-- Counterexample to C2 as stated: with budget `10`, after uploading a
4-byte shard `0`, a second upload of shard `0` with 16 bytes — a single shard
whose byte size alone exceeds the budget — returns successfully (no
`CapacityExceeded`): the already-resident branch refreshes metadata and
returns without any capacity check. -/
theorem C2_counterexample :
    ((10 : ℤ) < ((4 * ([(1 : ℚ), 2, 3, 4]).length : ℕ) : ℤ)) ∧
    (uploadShardToGPU (runUploads (initEngineNew 10 1 1) [⟨0, [1], 1, 1, 0, 0⟩])
        0 [1, 2, 3, 4] 1 4 0 1).2.2 = none := by
  constructor
  · decide
  · rfl

/-- C7: whenever the store evicts during an upload, the evicted shards are
exactly a prefix of the resident shards in ascending last-use order
(the stable `sort((a, b) => a.lastUsed - b.lastUsed)` ordering): the
least-recently-used shard goes first, and no shard is evicted while a
less-recently-used shard remains resident. -/
theorem C7_eviction_lru_prefix (e : EngineNew) (needed : ℤ)
    (hkeys : (cacheKeys e.shardCache).Nodup)
    (htotal : e.totalGpuBytes = sumBytes e.shardCache) :
    (evictIfNeeded e needed).2.1
        = (sortByLastUsed e.shardCache).take (evictIfNeeded e needed).2.1.length ∧
    (sortByLastUsed e.shardCache).Sorted (fun a b => a.lastUsed ≤ b.lastUsed) ∧
    List.Perm (sortByLastUsed e.shardCache) e.shardCache ∧
    ∀ r ∈ (evictIfNeeded e needed).2.1,
      ∀ s ∈ (evictIfNeeded e needed).1.shardCache, r.lastUsed ≤ s.lastUsed := by
  obtain ⟨ha, hbperm, _, _, _, _, _, _, _, _⟩ := evictIfNeeded_spec e needed hkeys htotal
  have hsorted : (sortByLastUsed e.shardCache).Sorted fun a b => a.lastUsed ≤ b.lastUsed :=
    List.sorted_insertionSort _ _
  refine ⟨ha, hsorted, List.perm_insertionSort _ _, ?_⟩
  intro r hr s hs
  have hsplit := List.take_append_drop (evictIfNeeded e needed).2.1.length
    (sortByLastUsed e.shardCache)
  have hpw : List.Pairwise (fun a b => a.lastUsed ≤ b.lastUsed)
      (sortByLastUsed e.shardCache) := hsorted
  rw [← hsplit] at hpw
  have hcross := (List.pairwise_append.mp hpw).2.2
  rw [ha] at hr
  exact hcross r hr s (hbperm.mem_iff.mp hs)

/-- Witness for C7 at a concrete two-shard cache where shard `1` is the least
recently used. -/
theorem C7_witness :
    (cacheKeys ([⟨0, 1, 0, 4, 5, []⟩, ⟨1, 1, 0, 4, 3, []⟩]
        : List ShardGPURecord)).Nodup ∧
    ((evictIfNeeded ⟨[⟨0, 1, 0, 4, 5, []⟩, ⟨1, 1, 0, 4, 3, []⟩], 8, 8, 1, 1⟩ 4).2.1
        = (sortByLastUsed [⟨0, 1, 0, 4, 5, []⟩, ⟨1, 1, 0, 4, 3, []⟩]).take
          (evictIfNeeded ⟨[⟨0, 1, 0, 4, 5, []⟩, ⟨1, 1, 0, 4, 3, []⟩], 8, 8, 1, 1⟩ 4).2.1.length ∧
      (sortByLastUsed [⟨0, 1, 0, 4, 5, []⟩, ⟨1, 1, 0, 4, 3, []⟩]).Sorted
        (fun a b => a.lastUsed ≤ b.lastUsed) ∧
      List.Perm (sortByLastUsed [⟨0, 1, 0, 4, 5, []⟩, ⟨1, 1, 0, 4, 3, []⟩])
        [⟨0, 1, 0, 4, 5, []⟩, ⟨1, 1, 0, 4, 3, []⟩] ∧
      ∀ r ∈ (evictIfNeeded ⟨[⟨0, 1, 0, 4, 5, []⟩, ⟨1, 1, 0, 4, 3, []⟩], 8, 8, 1, 1⟩ 4).2.1,
        ∀ s ∈ (evictIfNeeded ⟨[⟨0, 1, 0, 4, 5, []⟩, ⟨1, 1, 0, 4, 3, []⟩], 8, 8, 1, 1⟩ 4).1.shardCache,
          r.lastUsed ≤ s.lastUsed) := by
  constructor
  · decide
  · exact C7_eviction_lru_prefix ⟨[⟨0, 1, 0, 4, 5, []⟩, ⟨1, 1, 0, 4, 3, []⟩], 8, 8, 1, 1⟩ 4
      (by decide) (by decide)

end WebGpuVectorSearch
